import Mathlib

set_option maxHeartbeats 1000000
set_option maxRecDepth 100000

/-!
Verification of the in-process workload lifecycle orchestrator of loom-sdk:
the application state machine (`src/adapters/apps/app.state-machine.js`) and
the handle-bearing `AppsModule` orchestrator (`src/adapters/apps/apps.module.js`).
JS `Map`s are embedded as association lists with `Map.set`/`Map.delete`/`Map.get`
semantics (update in place, delete the unique key, first match); hooks are
embedded by their observable outcome (success or thrown message); timestamps
(`Date.now()`) are an explicit `now : Nat` parameter.
-/

namespace LoomSdk

/-! ### Association lists with JS `Map` semantics -/

/-- JS `Map.get`: first entry with the key (keys are unique in a real `Map`). -/
def aget {κ α : Type} [DecidableEq κ] (l : List (κ × α)) (k : κ) : Option α :=
  match l with
  | [] => none
  | (k', v) :: t => if k' = k then some v else aget t k

/-- JS `Map.has`. -/
def ahas {κ α : Type} [DecidableEq κ] (l : List (κ × α)) (k : κ) : Bool :=
  (aget l k).isSome

/-- JS `Map.set`: replace in place if the key is present, else append. -/
def aset {κ α : Type} [DecidableEq κ] (l : List (κ × α)) (k : κ) (v : α) : List (κ × α) :=
  match l with
  | [] => [(k, v)]
  | (k', v') :: t => if k' = k then (k, v) :: t else (k', v') :: aset t k v

/-- JS `Map.delete`: remove the (unique) entry with the key. -/
def adel {κ α : Type} [DecidableEq κ] (l : List (κ × α)) (k : κ) : List (κ × α) :=
  match l with
  | [] => []
  | (k', v') :: t => if k' = k then t else (k', v') :: adel t k

/-- Number of entries carrying a key. -/
def countKey {κ α : Type} [DecidableEq κ] (l : List (κ × α)) (k : κ) : Nat :=
  (l.map Prod.fst).count k

/-- Keys of the association list are pairwise distinct (true of every JS `Map`). -/
def keysNodup {κ α : Type} (l : List (κ × α)) : Prop :=
  (l.map Prod.fst).Nodup

/-- JS truthiness of a number-or-undefined (`x || null`): `0` and `undefined` are falsy. -/
def optTruthy (x : Option Nat) : Option Nat :=
  match x with
  | none => none
  | some n => if n = 0 then none else some n

/-! ### States and events (`app.state-machine.js`) -/

inductive AppState
  | INACTIVE
  | ACTIVE_FOREGROUND
  | ACTIVE_BACKGROUND
  | SUSPENDED
  | TERMINATING
  | TERMINATED
  | CRASHED
  deriving DecidableEq, Repr

inductive AppEvent
  | CREATE
  | ACTIVATE_FOREGROUND
  | ACTIVATE_BACKGROUND
  | DEACTIVATE
  | SUSPEND
  | RESUME
  | STOP
  | SIGNAL
  | FAIL
  deriving DecidableEq, Repr

/-- Command payload (`options`): the fields the orchestrator and the effects read. -/
structure Options where
  mode : Option String := none
  force : Bool := false
  sig : Option String := none
  deriving DecidableEq, Repr

/-- A workload object: optional lifecycle hooks embedded by their outcome
(`none` = hook absent; `some r` = hook present, returning or throwing `r`),
plus the public `api` surface (method name to function over `Nat` arguments). -/
structure App where
  onCreate : Option (Except String Unit) := none
  onActivate : Option (String → Except String Unit) := none
  onDeactivate : Option (Except String Unit) := none
  onSuspend : Option (Except String Unit) := none
  onResume : Option (Except String Unit) := none
  onTerminate : Option (Except String Unit) := none
  onSignal : Option (String → Except String Unit) := none
  api : Option (List (String × (List Nat → Except String Nat))) := none

/-- Observable record of one hook invocation. -/
inductive HookCall
  | create
  | activate (mode : String)
  | deactivate
  | suspend
  | resume
  | terminate
  | signal (sig : String)
  deriving DecidableEq, Repr

/-- The side-effect attached to a transition table entry. -/
inductive EffectKind
  | create
  | activateMode (mode : String)
  | deactivate
  | suspend
  | resume
  | stopGraceful
  | stopFinal
  | signal
  | fail
  deriving DecidableEq, Repr

/-- The static transition table `TRANSITIONS`: `(from, on) -> { to, effect }`,
with `none` as the pre-creation state (`null`, printed `∅` in the key). -/
def TRANSITIONS : Option AppState → AppEvent → Option (AppState × EffectKind)
  | none, .CREATE => some (.INACTIVE, .create)
  | some .INACTIVE, .ACTIVATE_FOREGROUND => some (.ACTIVE_FOREGROUND, .activateMode "foreground")
  | some .INACTIVE, .ACTIVATE_BACKGROUND => some (.ACTIVE_BACKGROUND, .activateMode "background")
  | some .ACTIVE_FOREGROUND, .DEACTIVATE => some (.INACTIVE, .deactivate)
  | some .ACTIVE_BACKGROUND, .DEACTIVATE => some (.INACTIVE, .deactivate)
  | some .INACTIVE, .SUSPEND => some (.SUSPENDED, .suspend)
  | some .ACTIVE_FOREGROUND, .SUSPEND => some (.SUSPENDED, .suspend)
  | some .ACTIVE_BACKGROUND, .SUSPEND => some (.SUSPENDED, .suspend)
  | some .SUSPENDED, .RESUME => some (.INACTIVE, .resume)
  | some .INACTIVE, .STOP => some (.TERMINATING, .stopGraceful)
  | some .ACTIVE_FOREGROUND, .STOP => some (.TERMINATING, .stopGraceful)
  | some .ACTIVE_BACKGROUND, .STOP => some (.TERMINATING, .stopGraceful)
  | some .SUSPENDED, .STOP => some (.TERMINATING, .stopGraceful)
  | some .TERMINATING, .STOP => some (.TERMINATED, .stopFinal)
  | some .INACTIVE, .SIGNAL => some (.INACTIVE, .signal)
  | some .ACTIVE_FOREGROUND, .SIGNAL => some (.ACTIVE_FOREGROUND, .signal)
  | some .ACTIVE_BACKGROUND, .SIGNAL => some (.ACTIVE_BACKGROUND, .signal)
  | some .SUSPENDED, .SIGNAL => some (.SUSPENDED, .signal)
  | some .INACTIVE, .FAIL => some (.CRASHED, .fail)
  | some .ACTIVE_FOREGROUND, .FAIL => some (.CRASHED, .fail)
  | some .ACTIVE_BACKGROUND, .FAIL => some (.CRASHED, .fail)
  | some .SUSPENDED, .FAIL => some (.CRASHED, .fail)
  | some .TERMINATING, .FAIL => some (.CRASHED, .fail)
  | _, _ => none

/-- Run a zero-argument hook: absent hooks are a successful no-op. -/
def runHook0 (h : Option (Except String Unit)) (c : HookCall) :
    List HookCall × Except String Unit :=
  match h with
  | none => ([], .ok ())
  | some r => ([c], r)

/-- Execute a transition entry's effect against the workload object, returning
the hook invocations made and the hook's outcome. -/
def runEffect (k : EffectKind) (app : App) (opts : Options) :
    List HookCall × Except String Unit :=
  match k with
  | .create => runHook0 app.onCreate .create
  | .activateMode mode =>
      match app.onActivate with
      | none => ([], .ok ())
      | some f => ([.activate mode], f mode)
  | .deactivate => runHook0 app.onDeactivate .deactivate
  | .suspend => runHook0 app.onSuspend .suspend
  | .resume => runHook0 app.onResume .resume
  | .stopGraceful =>
      -- `const force = !!ctx?.options?.force; if (!force && typeof app.onTerminate === 'function')`
      if opts.force then ([], .ok ())
      else runHook0 app.onTerminate .terminate
  | .stopFinal => ([], .ok ())
  | .signal =>
      -- `const sig = ctx?.options?.sig || 'SIGHUP'` (empty string is falsy)
      let sig := match opts.sig with
        | some s => if s = "" then "SIGHUP" else s
        | none => "SIGHUP"
      match app.onSignal with
      | none => ([], .ok ())
      | some f => ([.signal sig], f sig)
  | .fail => ([], .ok ())

/-! ### Error taxonomy

All JS errors are `Error` objects distinguished by message; the message text of
each throw site is reproduced by `Err.message`. -/

inductive Err
  | invalidTransition (fromState : Option AppState) (ev : AppEvent)
  | hookError (msg : String)
  | appNotFound (name : String)
  | appNotRegistered (name : String)
  | instanceNotRunning (name aliasName : String)
  | noInstances (name : String)
  | multipleInstances (name : String)
  | methodNotFound (method : String)
  | badAlias
  | aliasExistsForApp (name aliasName : String)
  | aliasGloballyInUse (aliasName : String)
  | pidMissing (key : String)
  | pidNotFound (pid : Nat)
  | apiError (msg : String)
  | registerArgs
  | ambiguousAlias (aliasName : String)
  deriving DecidableEq, Repr

def stateName : Option AppState → String
  | none => "null"
  | some s => (reprStr s).drop "LoomSdk.AppState.".length

/-- The JS message carried by each thrown `Error`. -/
def Err.message : Err → String
  | .invalidTransition fromState ev =>
      "Invalid transition from \x22" ++ stateName fromState ++ "\x22 on \x22" ++ (reprStr ev).drop "LoomSdk.AppEvent.".length ++ "\x22"
  | .hookError msg => msg
  | .appNotFound name => "App not found: " ++ name
  | .appNotRegistered name => "App not registered: " ++ name
  | .instanceNotRunning name aliasName => "App instance not running: " ++ name ++ ":" ++ aliasName
  | .noInstances name => "No instances running for: " ++ name
  | .multipleInstances name => "Multiple instances for \x22" ++ name ++ "\x22. Use alias or pid."
  | .methodNotFound method => "API method not found: " ++ method ++ "()"
  | .badAlias => "newAlias must be a non-empty string"
  | .aliasExistsForApp name aliasName => "Alias already exists for app \x22" ++ name ++ "\x22: " ++ aliasName
  | .aliasGloballyInUse aliasName => "Alias is globally in use: " ++ aliasName
  | .pidMissing key => "No PID for " ++ key
  | .pidNotFound pid => "PID not found: " ++ toString pid
  | .apiError msg => msg
  | .registerArgs => "register(name, AppClass) requires valid arguments"
  | .ambiguousAlias aliasName => "Alias \x22" ++ aliasName ++ "\x22 is ambiguous across apps. Use getByNameAndAlias(name, alias)."

/-! ### The per-instance state machine (`ApplicationStateMachine`) -/

/-- Audit record emitted per transition.  The JS field `on` is named `ev` and
`at` is named `atTime`; the crash emit does not include an `at` key, which is
modelled as `atTime = none`. -/
structure TransitionRecord where
  name : String
  aliasName : String
  fromState : Option AppState
  ev : AppEvent
  toState : AppState
  atTime : Option Nat
  error : Option String
  deriving DecidableEq, Repr

/-- One `ApplicationStateMachine` instance: the workload object, identity at
construction time, current state (`none` before `CREATE`) and timestamps. -/
structure Machine where
  app : App
  name : String
  aliasName : String
  state : Option AppState
  createdAt : Nat
  lastTransitionAt : Nat

/-- Outcome of one `transition` call: the returned value or thrown error, the
machine afterwards, the emitted audit records and the hook invocations made. -/
structure TStep where
  result : Except Err AppState
  machine : Machine
  records : List TransitionRecord
  calls : List HookCall

/-- `#apply`: run the matched entry's effect; on success commit the target
state, on a hook error move to `CRASHED`; either way stamp
`lastTransitionAt` and emit one audit record, and re-raise hook errors. -/
def Machine.applyEntry (m : Machine) (toState : AppState) (eff : EffectKind)
    (ev : AppEvent) (opts : Options) (now : Nat) : TStep :=
  match runEffect eff m.app opts with
  | (calls, .ok _) =>
      { result := .ok toState
        machine := { m with state := some toState, lastTransitionAt := now }
        records := [{ name := m.name, aliasName := m.aliasName, fromState := m.state, ev := ev,
                      toState := toState, atTime := some now, error := none }]
        calls := calls }
  | (calls, .error e) =>
      { result := .error (.hookError e)
        machine := { m with state := some .CRASHED, lastTransitionAt := now }
        records := [{ name := m.name, aliasName := m.aliasName, fromState := m.state, ev := ev,
                      toState := .CRASHED, atTime := none, error := some e }]
        calls := calls }

/-- `transition(event, options)`: look up `(from, event)` in the table; a miss
throws `Invalid transition` without touching the machine.  The source re-reads
the table for the `TERMINATING --STOP-->` second step before throwing; the key
is present in the table, so that re-read returns the same entry. -/
def Machine.transition (m : Machine) (ev : AppEvent) (opts : Options) (now : Nat) : TStep :=
  match TRANSITIONS m.state ev with
  | some entry => m.applyEntry entry.1 entry.2 ev opts now
  | none =>
      match m.state, ev with
      | some .TERMINATING, .STOP =>
          match TRANSITIONS (some .TERMINATING) .STOP with
          | some entry => m.applyEntry entry.1 entry.2 .STOP opts now
          | none => { result := .error (.invalidTransition m.state ev),
                      machine := m, records := [], calls := [] }
      | _, _ => { result := .error (.invalidTransition m.state ev),
                  machine := m, records := [], calls := [] }

/-- `signal(sig, options)` merges the signal name into the options. -/
def Machine.signalStep (m : Machine) (sig : String) (opts : Options) (now : Nat) : TStep :=
  m.transition .SIGNAL { opts with sig := some sig } now

/-! ### The orchestrator (`AppsModule`, handle-bearing variant) -/

/-- Value of `_processIndex` entries: `{ name, alias }`. -/
structure Identity where
  name : String
  aliasName : String
  deriving DecidableEq, Repr

/-- A live instance: `{ app, pid, stateMachine }` (the `state`/`createdAt`/
`lastTransitionAt` getters read through to the machine). -/
structure Instance where
  app : App
  pid : Nat
  machine : Machine

def Instance.state (i : Instance) : Option AppState := i.machine.state

/-- One registry entry: `{ AppClass?, route?, autostart?, autostartMode?,
instances }`.  The `AppClass` constructor is embedded as the `App` value it
constructs (`new AppClass(deps)` builds a fresh object of that shape). -/
structure RegistryEntry where
  appClass : Option App := none
  route : Option String := none
  autostart : Bool := false
  autostartMode : Option String := none
  instances : List (String × Instance) := []

/-- The orchestrator state: registry plus PID counter and the three indices. -/
structure AppsModule where
  registry : List (String × RegistryEntry) := []
  pidSeq : Nat := 1000
  processIndex : List (Nat × Identity) := []
  instanceIndex : List (String × Nat) := []
  globalAliasIndex : List (String × Identity) := []
  aliasSeq : List (String × Nat) := []

def initModule : AppsModule := {}

/-- The `_instanceIndex` key: `` `${name}:${alias}` ``. -/
def ikey (name aliasName : String) : String :=
  name ++ ":" ++ aliasName

/-- `#nextPid`: `do { seq += 1 } while (processIndex.has(seq))`.  The JS loop is
unbounded; `processIndex.length + 1` fuel is enough, since among `length + 1`
successive candidates at least one is not a key of the index. -/
def nextPidAux (idx : List (Nat × Identity)) : Nat → Nat → Nat
  | 0, seq => seq + 1
  | fuel + 1, seq => if ahas idx (seq + 1) then nextPidAux idx fuel (seq + 1) else seq + 1

def AppsModule.nextPid (m : AppsModule) : Nat × AppsModule :=
  let p := nextPidAux m.processIndex (m.processIndex.length + 1) m.pidSeq
  (p, { m with pidSeq := p })

/-- `meta` argument of `register`. -/
structure RegisterMeta where
  autostart : Option Bool := none
  autostartMode : Option String := none
  deriving DecidableEq, Repr

/-- `register(name, AppClass, meta)`: install or update a class entry; existing
instances are preserved.  (`AppClass` itself is always a valid value here, so
only the `!name` half of the argument check can fire.) -/
def AppsModule.register (m : AppsModule) (name : String) (appClass : App)
    (meta : RegisterMeta) : Except Err Unit × AppsModule :=
  if name = "" then (.error .registerArgs, m)
  else
    let entry0 := (aget m.registry name).getD {}
    let entry1 := { entry0 with appClass := some appClass }
    let entry2 := match meta.autostart with
      | some b => { entry1 with autostart := b }
      | none => entry1
    let entry3 :=
      if meta.autostartMode = some "foreground" ∨ meta.autostartMode = some "background"
      then { entry2 with autostartMode := meta.autostartMode }
      else entry2
    (.ok (), { m with registry := aset m.registry name entry3 })

/-- Return value of `spawn`: `{ alias, pid }`, where the idempotent branch
returns `pidExisting || null`. -/
structure SpawnResult where
  aliasName : String
  pid : Option Nat
  deriving DecidableEq, Repr

/-- Outcome of a `spawn` call: the returned value or thrown error, the module
afterwards, the hook invocations made and whether `new AppClass(...)` ran. -/
structure SpawnOut where
  result : Except Err SpawnResult
  st : AppsModule
  calls : List HookCall
  constructed : Bool

/-- `spawn(name, alias?, opts)`: requires a registered class; allocates a pid
first; defaults the alias to the pid string; returns the existing pair if the
alias is live (idempotent); otherwise constructs the workload, drives `CREATE`
(re-raising hook errors before anything is registered), then installs the
instance in the registry and all three indices. -/
def AppsModule.spawn (m : AppsModule) (name : String) (aliasOpt : Option String)
    (opts : Options) (now : Nat) : SpawnOut :=
  match aget m.registry name with
  | none => ⟨.error (.appNotFound name), m, [], false⟩
  | some registryApp =>
    match registryApp.appClass with
    | none => ⟨.error (.appNotFound name), m, [], false⟩
    | some appClass =>
      let pm := m.nextPid
      let pid := pm.1
      let m1 := pm.2
      let aliasName := match aliasOpt with
        | none => toString pid
        | some a => a
      if ahas registryApp.instances aliasName then
        ⟨.ok { aliasName := aliasName,
               pid := optTruthy (aget m1.instanceIndex (ikey name aliasName)) },
         m1, [], false⟩
      else
        let app := appClass
        let machine0 : Machine :=
          { app := app, name := name, aliasName := aliasName, state := none,
            createdAt := now, lastTransitionAt := now }
        let step := machine0.transition .CREATE opts now
        match step.result with
        | .error e => ⟨.error e, m1, step.calls, true⟩
        | .ok _ =>
          let inst : Instance := { app := app, pid := pid, machine := step.machine }
          let entry' := { registryApp with instances := aset registryApp.instances aliasName inst }
          ⟨.ok { aliasName := aliasName, pid := some pid },
           { m1 with
             registry := aset m1.registry name entry',
             processIndex := aset m1.processIndex pid ⟨name, aliasName⟩,
             instanceIndex := aset m1.instanceIndex (ikey name aliasName) pid,
             globalAliasIndex := aset m1.globalAliasIndex aliasName ⟨name, aliasName⟩ },
           step.calls, true⟩

/-- `#instance`: resolve `(name, alias)` through the registry. -/
def AppsModule.getInstance (m : AppsModule) (name aliasName : String) : Option Instance :=
  (aget m.registry name).bind fun e => aget e.instances aliasName

/-- Write back a mutated instance object (JS mutates it in place through the
reference held by the registry maps). -/
def AppsModule.updateInstance (m : AppsModule) (name aliasName : String)
    (inst : Instance) : AppsModule :=
  match aget m.registry name with
  | none => m
  | some entry =>
      let entry' := { entry with instances := aset entry.instances aliasName inst }
      { m with registry := aset m.registry name entry' }

/-- Outcome of a lifecycle command. -/
structure CmdOut where
  result : Except Err Unit
  st : AppsModule
  calls : List HookCall

/-- Drive one machine event on a resolved instance and persist the machine,
also when the transition threw (the machine object was mutated in place). -/
def AppsModule.driveEvent (m : AppsModule) (name aliasName : String) (ev : AppEvent)
    (opts : Options) (now : Nat) : CmdOut :=
  match m.getInstance name aliasName with
  | none => ⟨.error (.instanceNotRunning name aliasName), m, []⟩
  | some inst =>
    let step := inst.machine.transition ev opts now
    let m' := m.updateInstance name aliasName { inst with machine := step.machine }
    match step.result with
    | .ok _ => ⟨.ok (), m', step.calls⟩
    | .error e => ⟨.error e, m', step.calls⟩

/-- `activate(name, alias, {mode})`: anything but `'background'` means
`'foreground'`. -/
def AppsModule.activate (m : AppsModule) (name aliasName : String)
    (opts : Options) (now : Nat) : CmdOut :=
  if opts.mode = some "background"
  then m.driveEvent name aliasName .ACTIVATE_BACKGROUND opts now
  else m.driveEvent name aliasName .ACTIVATE_FOREGROUND opts now

def AppsModule.deactivate (m : AppsModule) (name aliasName : String)
    (opts : Options) (now : Nat) : CmdOut :=
  m.driveEvent name aliasName .DEACTIVATE opts now

/-- `suspend`: skipped (success, no hook) when the instance is already
`SUSPENDED`. -/
def AppsModule.suspend (m : AppsModule) (name aliasName : String)
    (opts : Options) (now : Nat) : CmdOut :=
  match m.getInstance name aliasName with
  | none => ⟨.error (.instanceNotRunning name aliasName), m, []⟩
  | some inst =>
    if inst.state ≠ some .SUSPENDED then
      m.driveEvent name aliasName .SUSPEND opts now
    else ⟨.ok (), m, []⟩

def AppsModule.resume (m : AppsModule) (name aliasName : String)
    (opts : Options) (now : Nat) : CmdOut :=
  m.driveEvent name aliasName .RESUME opts now

/-- `signal(name, alias, sig, opts)`: merge `sig` into the options and drive
`SIGNAL` (no state change by design). -/
def AppsModule.signal (m : AppsModule) (name aliasName sig : String)
    (opts : Options) (now : Nat) : CmdOut :=
  match m.getInstance name aliasName with
  | none => ⟨.error (.instanceNotRunning name aliasName), m, []⟩
  | some inst =>
    let step := inst.machine.signalStep sig opts now
    let m' := m.updateInstance name aliasName { inst with machine := step.machine }
    match step.result with
    | .ok _ => ⟨.ok (), m', step.calls⟩
    | .error e => ⟨.error e, m', step.calls⟩

/-- `stop(name, alias, {force})`: silently a no-op when the class or instance
does not exist; drives `STOP` twice (`TERMINATING` then `TERMINATED`), then
drops the instance from the registry and cleans the pid and global-alias
indices.  A hook error on the way re-raises with the instance left in place. -/
def AppsModule.stop (m : AppsModule) (name aliasName : String)
    (opts : Options) (now : Nat) : CmdOut :=
  match aget m.registry name with
  | none => ⟨.ok (), m, []⟩
  | some appRegistry =>
    match aget appRegistry.instances aliasName with
    | none => ⟨.ok (), m, []⟩
    | some inst =>
      let step1 := inst.machine.transition .STOP { force := opts.force } now
      match step1.result with
      | .error e =>
          ⟨.error e, m.updateInstance name aliasName { inst with machine := step1.machine },
           step1.calls⟩
      | .ok _ =>
        let step2 := step1.machine.transition .STOP {} now
        match step2.result with
        | .error e =>
            ⟨.error e, m.updateInstance name aliasName { inst with machine := step2.machine },
             step1.calls ++ step2.calls⟩
        | .ok _ =>
          let entry' := { appRegistry with instances := adel appRegistry.instances aliasName }
          let m1 := { m with registry := aset m.registry name entry' }
          let m2 := match aget m1.instanceIndex (ikey name aliasName) with
            | some pid =>
                if pid = 0 then m1   -- `if (pid)`: 0 is falsy
                else { m1 with
                       instanceIndex := adel m1.instanceIndex (ikey name aliasName),
                       processIndex := adel m1.processIndex pid }
            | none => m1
          let m3 := { m2 with globalAliasIndex := adel m2.globalAliasIndex aliasName }
          ⟨.ok (), m3, step1.calls ++ step2.calls⟩

/-- `status(name, alias)` snapshot. -/
structure StatusSnapshot where
  name : String
  aliasName : String
  pid : Nat
  state : Option AppState
  createdAt : Nat
  lastTransitionAt : Nat
  deriving DecidableEq, Repr

def AppsModule.status (m : AppsModule) (name aliasName : String) :
    Except Err StatusSnapshot :=
  match m.getInstance name aliasName with
  | none => .error (.instanceNotRunning name aliasName)
  | some inst =>
      .ok { name := name, aliasName := aliasName, pid := inst.pid,
            state := inst.machine.state, createdAt := inst.machine.createdAt,
            lastTransitionAt := inst.machine.lastTransitionAt }

structure InstanceSnapshot where
  aliasName : String
  pid : Nat
  state : Option AppState
  createdAt : Nat
  lastTransitionAt : Nat
  deriving DecidableEq, Repr

/-- `list()`: running instances grouped by app. -/
def AppsModule.list (m : AppsModule) : List (String × List InstanceSnapshot) :=
  m.registry.map fun p =>
    (p.1, p.2.instances.map fun q =>
      { aliasName := q.1, pid := q.2.pid, state := q.2.machine.state,
        createdAt := q.2.machine.createdAt,
        lastTransitionAt := q.2.machine.lastTransitionAt })

/-- The public API surface of an instance. -/
def ApiObject := List (String × (List Nat → Except String Nat))

/-- `raw = instance.app?.api; typeof raw === 'function' ? raw.call(...) : (raw || {})`:
the zero-argument producer is collapsed into the object it produces. -/
def rawApi (app : App) : ApiObject :=
  app.api.getD []

/-- `api(name, alias?)`: throws on unknown class, zero instances, an omitted
(or empty, which is falsy) alias with several instances, or a dead alias. -/
def AppsModule.api (m : AppsModule) (name : String) (aliasOpt : Option String) :
    Except Err ApiObject :=
  match aget m.registry name with
  | none => .error (.appNotRegistered name)
  | some entry =>
    let aliases := entry.instances.map Prod.fst
    if aliases.length = 0 then .error (.noInstances name)
    else
      let target : Option String := match aliasOpt with
        | some a => if a = "" then none else some a
        | none => none
      match target with
      | some a =>
          (match aget entry.instances a with
           | none => .error (.instanceNotRunning name a)
           | some inst => .ok (rawApi inst.app))
      | none =>
          match aliases with
          | [a] =>
              (match aget entry.instances a with
               | none => .error (.instanceNotRunning name a)
               | some inst => .ok (rawApi inst.app))
          | _ => .error (.multipleInstances name)

/-- `call(name, alias, method, ...args)`. -/
def AppsModule.call (m : AppsModule) (name aliasName method : String)
    (args : List Nat) : Except Err Nat :=
  match m.api name (some aliasName) with
  | .error e => .error e
  | .ok apiObj =>
    match aget apiObj method with
    | none => .error (.methodNotFound method)
    | some f =>
      match f args with
      | .ok v => .ok v
      | .error e => .error (.apiError e)

/-- One row of a `broadcast` result. -/
structure BroadcastItem where
  aliasName : String
  pid : Nat
  ok : Bool
  value : Option Nat := none
  error : Option String := none
  deriving DecidableEq, Repr

/-- `broadcast(name, method, ...args)`: per instance, `try { api(); fn(...) }`
with the failure recorded as `{ ok:false, error }` instead of aborting. -/
def AppsModule.broadcast (m : AppsModule) (name method : String) (args : List Nat) :
    Except Err (List BroadcastItem) :=
  match aget m.registry name with
  | none => .error (.appNotRegistered name)
  | some entry =>
    .ok (entry.instances.map fun p =>
      match m.api name (some p.1) with
      | .error e => { aliasName := p.1, pid := p.2.pid, ok := false, error := some e.message }
      | .ok apiObj =>
        match aget apiObj method with
        | none => { aliasName := p.1, pid := p.2.pid, ok := false,
                    error := some (Err.message (.methodNotFound method)) }
        | some f =>
          match f args with
          | .ok v => { aliasName := p.1, pid := p.2.pid, ok := true, value := some v }
          | .error e => { aliasName := p.1, pid := p.2.pid, ok := false, error := some e })

/-- `getPid(name, alias)` (`if (!pid) throw`). -/
def AppsModule.getPid (m : AppsModule) (name aliasName : String) : Except Err Nat :=
  match aget m.instanceIndex (ikey name aliasName) with
  | none => .error (.pidMissing (ikey name aliasName))
  | some pid => if pid = 0 then .error (.pidMissing (ikey name aliasName)) else .ok pid

/-- Return value of `#renameAlias`. -/
structure RenameResult where
  name : String
  oldAlias : String
  newAlias : String
  pid : Option Nat
  noop : Bool := false
  deriving DecidableEq, Repr

/-- `#renameAlias(name, oldAlias, newAlias)`: validates shape, no-ops when the
alias is unchanged, rejects a same-class or global collision before touching
anything, then rewrites the registry key and all three indices. -/
def AppsModule.renameAlias (m : AppsModule) (name oldAlias newAlias : String) :
    Except Err RenameResult × AppsModule :=
  if newAlias = "" then (.error .badAlias, m)
  else if newAlias = oldAlias then
    (.ok { name := name, oldAlias := oldAlias, newAlias := newAlias,
           pid := optTruthy (aget m.instanceIndex (ikey name oldAlias)), noop := true }, m)
  else
    match aget m.registry name with
    | none => (.error (.appNotRegistered name), m)
    | some entry =>
      match aget entry.instances oldAlias with
      | none => (.error (.instanceNotRunning name oldAlias), m)
      | some inst =>
        if ahas entry.instances newAlias then (.error (.aliasExistsForApp name newAlias), m)
        else if ahas m.globalAliasIndex newAlias then (.error (.aliasGloballyInUse newAlias), m)
        else
          match aget m.instanceIndex (ikey name oldAlias) with
          | none => (.error (.pidMissing (ikey name oldAlias)), m)
          | some pid =>
            if pid = 0 then (.error (.pidMissing (ikey name oldAlias)), m)
            else
              let entry' := { entry with
                instances := aset (adel entry.instances oldAlias) newAlias inst }
              let processIndex' := match aget m.processIndex pid with
                | some _ => aset m.processIndex pid ⟨name, newAlias⟩
                | none => m.processIndex
              (.ok { name := name, oldAlias := oldAlias, newAlias := newAlias,
                     pid := some pid, noop := false },
               { m with
                 registry := aset m.registry name entry',
                 instanceIndex :=
                   aset (adel m.instanceIndex (ikey name oldAlias)) (ikey name newAlias) pid,
                 processIndex := processIndex',
                 globalAliasIndex :=
                   aset (adel m.globalAliasIndex oldAlias) newAlias ⟨name, newAlias⟩ })

/-! ### Command sequences -/

/-- The orchestrator commands quantified over in the claims, with explicit
clock values; `setAlias` is the rename reached through any API handle. -/
inductive Cmd
  | register (name : String) (appClass : App) (meta : RegisterMeta)
  | spawn (name : String) (aliasOpt : Option String) (opts : Options) (now : Nat)
  | activate (name aliasName : String) (opts : Options) (now : Nat)
  | deactivate (name aliasName : String) (opts : Options) (now : Nat)
  | suspend (name aliasName : String) (opts : Options) (now : Nat)
  | resume (name aliasName : String) (opts : Options) (now : Nat)
  | stop (name aliasName : String) (opts : Options) (now : Nat)
  | signal (name aliasName sig : String) (opts : Options) (now : Nat)
  | setAlias (name oldAlias newAlias : String)

/-- Execute one command for its state effect. -/
def stepCmd (m : AppsModule) : Cmd → AppsModule
  | .register n app meta => (m.register n app meta).2
  | .spawn n a o t => (m.spawn n a o t).st
  | .activate n a o t => (m.activate n a o t).st
  | .deactivate n a o t => (m.deactivate n a o t).st
  | .suspend n a o t => (m.suspend n a o t).st
  | .resume n a o t => (m.resume n a o t).st
  | .stop n a o t => (m.stop n a o t).st
  | .signal n a s o t => (m.signal n a s o t).st
  | .setAlias n o nw => (m.renameAlias n o nw).2

/-- Whether an `Except` result is a normal return rather than a throw. -/
def isOkE {ε α : Type} : Except ε α → Bool
  | .ok _ => true
  | .error _ => false

/-- Whether one command succeeds (returns rather than throws) on a module. -/
def cmdOk (m : AppsModule) : Cmd → Bool
  | .register n app meta => (m.register n app meta).1 |> isOkE
  | .spawn n a o t => (m.spawn n a o t).result |> isOkE
  | .activate n a o t => (m.activate n a o t).result |> isOkE
  | .deactivate n a o t => (m.deactivate n a o t).result |> isOkE
  | .suspend n a o t => (m.suspend n a o t).result |> isOkE
  | .resume n a o t => (m.resume n a o t).result |> isOkE
  | .stop n a o t => (m.stop n a o t).result |> isOkE
  | .signal n a s o t => (m.signal n a s o t).result |> isOkE
  | .setAlias n o nw => (m.renameAlias n o nw).1 |> isOkE

/-- All commands of the list succeed when run in order from `m`. -/
def allOk (m : AppsModule) : List Cmd → Bool
  | [] => true
  | c :: cs => cmdOk m c && allOk (stepCmd m c) cs

/-- Run a command list from the freshly constructed orchestrator. -/
def runCmds (cs : List Cmd) : AppsModule :=
  cs.foldl stepCmd initModule

/-! ### Consistency properties and the registry invariant -/

/-- The `_instanceIndex` key `` `${name}:${alias}` `` is only unambiguous when the
class name itself contains no `':'`. -/
def nameOk (n : String) : Prop :=
  ':' ∉ n.data

/-- A command registers classes under colon-free names only (all other commands
never add registry keys). -/
def Cmd.colonFree : Cmd → Prop
  | .register n _ _ => nameOk n
  | _ => True

/-- Mutual consistency of registry and all three indices as claimed: every live
instance has exactly one agreeing entry in its class's alias map, in
`_instanceIndex`, in `_processIndex` and in `_globalAliasIndex`. -/
def ConsistentFour (m : AppsModule) : Prop :=
  ∀ n e a inst, aget m.registry n = some e → aget e.instances a = some inst →
    countKey e.instances a = 1 ∧
    aget m.instanceIndex (ikey n a) = some inst.pid ∧
    countKey m.instanceIndex (ikey n a) = 1 ∧
    aget m.processIndex inst.pid = some ⟨n, a⟩ ∧
    countKey m.processIndex inst.pid = 1 ∧
    aget m.globalAliasIndex a = some ⟨n, a⟩ ∧
    countKey m.globalAliasIndex a = 1

/-- Decidable check of the `ConsistentFour` conditions at one `(name, alias)`
key (vacuously true when nothing lives there). -/
def consistentFourAt (m : AppsModule) (n a : String) : Bool :=
  match aget m.registry n with
  | none => true
  | some e =>
    match aget e.instances a with
    | none => true
    | some inst =>
      decide (countKey e.instances a = 1) &&
      decide (aget m.instanceIndex (ikey n a) = some inst.pid) &&
      decide (countKey m.instanceIndex (ikey n a) = 1) &&
      decide (aget m.processIndex inst.pid = some (⟨n, a⟩ : Identity)) &&
      decide (countKey m.processIndex inst.pid = 1) &&
      decide (aget m.globalAliasIndex a = some (⟨n, a⟩ : Identity)) &&
      decide (countKey m.globalAliasIndex a = 1)

/-- Mutual consistency of the registry, `_instanceIndex` and `_processIndex`
(the `_globalAliasIndex` conjuncts of `ConsistentFour` removed). -/
def ConsistentThree (m : AppsModule) : Prop :=
  ∀ n e a inst, aget m.registry n = some e → aget e.instances a = some inst →
    countKey e.instances a = 1 ∧
    aget m.instanceIndex (ikey n a) = some inst.pid ∧
    countKey m.instanceIndex (ikey n a) = 1 ∧
    aget m.processIndex inst.pid = some ⟨n, a⟩ ∧
    countKey m.processIndex inst.pid = 1

/-- The inductive invariant maintained by every command: all maps have unique
keys, registry names are colon-free, the two pid-bearing indices agree with the
registry in both directions, and every indexed pid is positive and bounded by
the counter. -/
structure WF (m : AppsModule) : Prop where
  regNodup : keysNodup m.registry
  instNodup : ∀ n e, aget m.registry n = some e → keysNodup e.instances
  procNodup : keysNodup m.processIndex
  idxNodup : keysNodup m.instanceIndex
  names : ∀ n e, aget m.registry n = some e → nameOk n
  fwdIdx : ∀ n e a inst, aget m.registry n = some e → aget e.instances a = some inst →
      aget m.instanceIndex (ikey n a) = some inst.pid
  fwdProc : ∀ n e a inst, aget m.registry n = some e → aget e.instances a = some inst →
      aget m.processIndex inst.pid = some ⟨n, a⟩
  procBwd : ∀ p pd, aget m.processIndex p = some pd →
      ∃ e inst, aget m.registry pd.name = some e ∧
        aget e.instances pd.aliasName = some inst ∧ inst.pid = p
  idxBwd : ∀ k p, aget m.instanceIndex k = some p →
      ∃ n a e inst, k = ikey n a ∧ aget m.registry n = some e ∧
        aget e.instances a = some inst ∧ inst.pid = p
  pidBound : ∀ p pd, aget m.processIndex p = some pd → 0 < p ∧ p ≤ m.pidSeq

/-! ### Concrete inputs used by the claim theorems -/

/-- A workload with no hooks and no API. -/
def plainApp : App := {}

/-- Two classes spawning a live instance under the same alias `"x"`: all four
commands succeed. -/
def sharedAliasCmds : List Cmd :=
  [.register "A" plainApp {}, .register "B" plainApp {},
   .spawn "A" (some "x") {} 1, .spawn "B" (some "x") {} 2]

/-- A demonstration run touching every command kind. -/
def c1DemoCmds : List Cmd :=
  [.register "A" plainApp {}, .spawn "A" (some "x") {} 1,
   .register "B" plainApp {}, .spawn "B" none {} 2,
   .activate "A" "x" { mode := some "background" } 3,
   .setAlias "A" "x" "x2",
   .spawn "A" (some "x") {} 4,
   .suspend "A" "x" {} 5,
   .deactivate "A" "x2" {} 6,
   .stop "B" "1002" {} 7,
   .signal "A" "x2" "SIGHUP" {} 8]

/-- C3 end-to-end run: fresh orchestrator, `worker` registered, no autostart. -/
def c3m0 : AppsModule := (initModule.register "worker" plainApp {}).2

def c3spawn : SpawnOut := c3m0.spawn "worker" none {} 10

def c3act : CmdOut := c3spawn.st.activate "worker" "1001" { mode := some "foreground" } 11

def c3susp : CmdOut := c3act.st.suspend "worker" "1001" {} 12

def c3res : CmdOut := c3susp.st.resume "worker" "1001" {} 13

def c3stop : CmdOut := c3res.st.stop "worker" "1001" {} 14

/-- A workload whose `onActivate` hook throws. -/
def crashingApp : App :=
  { onActivate := some fun _ => .error "boom" }

/-- A machine for `crashingApp` sitting in `INACTIVE`. -/
def crashingMachine : Machine :=
  { app := crashingApp, name := "w", aliasName := "a", state := some .INACTIVE,
    createdAt := 0, lastTransitionAt := 0 }

/-- Module with one `crashingApp` instance, used to produce a crashed instance
through commands. -/
def c4Cmds : List Cmd :=
  [.register "w" crashingApp {}, .spawn "w" (some "a") {} 1,
   .activate "w" "a" { mode := some "foreground" } 2]

/-- A workload whose `onCreate` hook throws. -/
def createCrashApp : App :=
  { onCreate := some (.error "boom") }

def c10m0 : AppsModule := (initModule.register "W" createCrashApp {}).2

/-- Three workloads for one class whose `work` method succeeds, throws, and
succeeds.  In JS the three instances of one class diverge through
constructor-time state; the value embedding of `App` cannot express that
through `spawn`, so the registry state is given directly (and consistently
with all indices). -/
def bcApp1 : App := { api := some [("work", fun _ => .ok 1)] }

def bcApp2 : App := { api := some [("work", fun _ => .error "boom")] }

def bcApp3 : App := { api := some [("work", fun _ => .ok 3)] }

def bcMachine (app : App) (a : String) : Machine :=
  { app := app, name := "svc", aliasName := a, state := some .INACTIVE,
    createdAt := 0, lastTransitionAt := 0 }

def bcModule : AppsModule :=
  { registry := [("svc",
      { appClass := some bcApp1,
        instances :=
          [("a1", ⟨bcApp1, 1001, bcMachine bcApp1 "a1"⟩),
           ("a2", ⟨bcApp2, 1002, bcMachine bcApp2 "a2"⟩),
           ("a3", ⟨bcApp3, 1003, bcMachine bcApp3 "a3"⟩)] })],
    pidSeq := 1003,
    processIndex := [(1001, ⟨"svc", "a1"⟩), (1002, ⟨"svc", "a2"⟩), (1003, ⟨"svc", "a3"⟩)],
    instanceIndex := [("svc:a1", 1001), ("svc:a2", 1002), ("svc:a3", 1003)],
    globalAliasIndex := [("a1", ⟨"svc", "a1"⟩), ("a2", ⟨"svc", "a2"⟩), ("a3", ⟨"svc", "a3"⟩)] }

/-- Single-instance run used by rename demonstrations. -/
def c5DemoCmds : List Cmd :=
  [.register "A" plainApp {}, .spawn "A" (some "x") {} 1]

/-! ## Lemmas about the map embedding -/

theorem aget_aset {κ α : Type} [DecidableEq κ] (l : List (κ × α)) (k k' : κ) (v : α) :
    aget (aset l k v) k' = if k = k' then some v else aget l k' := by
  induction l with
  | nil => simp [aset, aget]
  | cons h t ih =>
    obtain ⟨k1, v1⟩ := h
    by_cases h1 : k1 = k
    · subst h1
      simp only [aset, if_pos rfl, aget]
      by_cases h2 : k1 = k'
      · simp [h2]
      · simp [h2]
    · simp only [aset, if_neg h1, aget]
      by_cases h2 : k1 = k'
      · have : ¬ k = k' := fun hk => h1 (hk ▸ h2)
        simp [h2, this]
      · simp [h2, ih]

theorem aget_eq_none_iff {κ α : Type} [DecidableEq κ] (l : List (κ × α)) (k : κ) :
    aget l k = none ↔ k ∉ l.map Prod.fst := by
  induction l with
  | nil => simp [aget]
  | cons h t ih =>
    obtain ⟨k1, v1⟩ := h
    by_cases h1 : k1 = k
    · subst h1; simp [aget]
    · simp [aget, h1, ih, Ne.symm h1]

theorem ahas_false_iff {κ α : Type} [DecidableEq κ] (l : List (κ × α)) (k : κ) :
    ahas l k = false ↔ aget l k = none := by
  unfold ahas
  cases aget l k <;> simp

theorem ahas_true_iff {κ α : Type} [DecidableEq κ] (l : List (κ × α)) (k : κ) :
    ahas l k = true ↔ ∃ v, aget l k = some v := by
  unfold ahas
  cases aget l k <;> simp

theorem aget_adel {κ α : Type} [DecidableEq κ] (l : List (κ × α)) (hl : keysNodup l)
    (k k' : κ) : aget (adel l k) k' = if k = k' then none else aget l k' := by
  induction l with
  | nil => simp [adel, aget]
  | cons h t ih =>
    obtain ⟨k1, v1⟩ := h
    obtain ⟨hk1, ht⟩ : k1 ∉ t.map Prod.fst ∧ keysNodup t := by
      simpa [keysNodup] using hl
    by_cases h1 : k1 = k
    · subst h1
      simp only [adel, if_pos rfl]
      by_cases h2 : k1 = k'
      · subst h2; simp [(aget_eq_none_iff t k1).2 hk1]
      · simp [aget, h2, if_neg (fun hk : k1 = k' => h2 hk)]
    · simp only [adel, if_neg h1, aget]
      by_cases h2 : k1 = k'
      · have : ¬ k = k' := fun hk => h1 (hk ▸ h2)
        simp [h2, this]
      · simp [h2, ih ht]

theorem mem_keys_iff {κ α : Type} [DecidableEq κ] (l : List (κ × α)) (k : κ) :
    k ∈ l.map Prod.fst ↔ aget l k ≠ none := by
  rw [ne_eq, aget_eq_none_iff, not_not]

theorem keys_aset_subset {κ α : Type} [DecidableEq κ] (l : List (κ × α)) (k k' : κ) (v : α)
    (h : k' ∈ (aset l k v).map Prod.fst) : k' = k ∨ k' ∈ l.map Prod.fst := by
  by_cases hk : k = k'
  · exact Or.inl hk.symm
  · right
    rw [mem_keys_iff] at h ⊢
    rwa [aget_aset, if_neg hk] at h

theorem keysNodup_aset {κ α : Type} [DecidableEq κ] (l : List (κ × α)) (k : κ) (v : α)
    (hl : keysNodup l) : keysNodup (aset l k v) := by
  induction l with
  | nil => simp [aset, keysNodup]
  | cons p t ih =>
    obtain ⟨k1, v1⟩ := p
    obtain ⟨hk1, ht⟩ : k1 ∉ t.map Prod.fst ∧ keysNodup t := by
      simpa [keysNodup] using hl
    by_cases h1 : k1 = k
    · subst h1
      simpa [aset, keysNodup, hk1] using ht
    · have ht' := ih ht
      have hk1' : k1 ∉ (aset t k v).map Prod.fst := by
        intro hmem
        rcases keys_aset_subset t k k1 v hmem with h2 | h2
        · exact h1 h2
        · exact hk1 h2
      simpa [aset, if_neg h1, keysNodup, hk1'] using ht'

theorem keys_adel_subset {κ α : Type} [DecidableEq κ] (l : List (κ × α)) (k k' : κ)
    (h : k' ∈ (adel l k).map Prod.fst) : k' ∈ l.map Prod.fst := by
  induction l with
  | nil => simpa [adel] using h
  | cons p t ih =>
    obtain ⟨k1, v1⟩ := p
    by_cases h1 : k1 = k
    · subst h1
      simp only [adel, if_pos rfl] at h
      simp only [List.map_cons, List.mem_cons]
      exact Or.inr h
    · simp only [adel, if_neg h1, List.map_cons, List.mem_cons] at h
      simp only [List.map_cons, List.mem_cons]
      rcases h with h2 | h2
      · exact Or.inl h2
      · exact Or.inr (ih h2)

theorem keysNodup_adel {κ α : Type} [DecidableEq κ] (l : List (κ × α)) (k : κ)
    (hl : keysNodup l) : keysNodup (adel l k) := by
  induction l with
  | nil => simp [adel, keysNodup]
  | cons p t ih =>
    obtain ⟨k1, v1⟩ := p
    obtain ⟨hk1, ht⟩ : k1 ∉ t.map Prod.fst ∧ keysNodup t := by
      simpa [keysNodup] using hl
    by_cases h1 : k1 = k
    · subst h1; simpa [adel, keysNodup] using ht
    · have hk1' : k1 ∉ (adel t k).map Prod.fst := fun hm => hk1 (keys_adel_subset t k k1 hm)
      simpa [adel, if_neg h1, keysNodup, hk1'] using ih ht

theorem countKey_eq_one {κ α : Type} [DecidableEq κ] (l : List (κ × α)) (k : κ) (v : α)
    (hl : keysNodup l) (hv : aget l k = some v) : countKey l k = 1 := by
  induction l with
  | nil => simp [aget] at hv
  | cons p t ih =>
    obtain ⟨k1, v1⟩ := p
    obtain ⟨hk1, ht⟩ : k1 ∉ t.map Prod.fst ∧ keysNodup t := by
      simpa [keysNodup] using hl
    by_cases h1 : k1 = k
    · subst h1
      have : k1 ∉ t.map Prod.fst := hk1
      have hz : (t.map Prod.fst).count k1 = 0 := List.count_eq_zero.2 this
      simp [countKey, List.count_cons, hz]
    · simp only [aget, if_neg h1] at hv
      have := ih ht hv
      simpa [countKey, List.count_cons, h1, Ne.symm h1] using this

/-! ## Lemmas about `ikey` and `nextPid` -/

theorem ikey_data (n a : String) : (ikey n a).data = n.data ++ ':' :: a.data := by
  simp [ikey]

theorem splitColon {l1 r1 l2 r2 : List Char} (h1 : ':' ∉ l1) (h2 : ':' ∉ l2)
    (h : l1 ++ ':' :: r1 = l2 ++ ':' :: r2) : l1 = l2 ∧ r1 = r2 := by
  induction l1 generalizing l2 with
  | nil =>
    cases l2 with
    | nil => simpa using h
    | cons c t =>
      exfalso
      simp only [List.nil_append, List.cons_append, List.cons.injEq] at h
      exact h2 (by simp [← h.1])
  | cons c t ih =>
    cases l2 with
    | nil =>
      exfalso
      simp only [List.cons_append, List.nil_append, List.cons.injEq] at h
      exact h1 (by simp [h.1])
    | cons c' t' =>
      simp only [List.cons_append, List.cons.injEq] at h
      have h1' : ':' ∉ t := fun hm => h1 (by simp [hm])
      have h2' : ':' ∉ t' := fun hm => h2 (by simp [hm])
      obtain ⟨ha, hb⟩ := ih h1' h2' h.2
      exact ⟨by simp [h.1, ha], hb⟩

theorem ikey_inj {n1 a1 n2 a2 : String} (h1 : nameOk n1) (h2 : nameOk n2)
    (h : ikey n1 a1 = ikey n2 a2) : n1 = n2 ∧ a1 = a2 := by
  have hd : n1.data ++ ':' :: a1.data = n2.data ++ ':' :: a2.data := by
    have := congrArg String.data h
    rwa [ikey_data, ikey_data] at this
  obtain ⟨ha, hb⟩ := splitColon h1 h2 hd
  exact ⟨String.ext ha, String.ext hb⟩

theorem ikey_right_inj {n a1 a2 : String} (h : ikey n a1 = ikey n a2) : a1 = a2 := by
  have hd : n.data ++ ':' :: a1.data = n.data ++ ':' :: a2.data := by
    have := congrArg String.data h
    rwa [ikey_data, ikey_data] at this
  have := List.append_cancel_left hd
  exact String.ext (by simpa using this)

theorem nextPidAux_gt (idx : List (Nat × Identity)) (fuel seq : Nat) :
    seq < nextPidAux idx fuel seq := by
  induction fuel generalizing seq with
  | zero => simp [nextPidAux]
  | succ f ih =>
    simp only [nextPidAux]
    split
    · exact Nat.lt_trans (Nat.lt_succ_self seq) (ih (seq + 1))
    · exact Nat.lt_succ_self seq

theorem nextPidAux_free (idx : List (Nat × Identity)) (fuel seq : Nat)
    (hfree : ahas idx (seq + 1) = false) (hf : 0 < fuel) :
    nextPidAux idx fuel seq = seq + 1 := by
  cases fuel with
  | zero => exact absurd hf (by simp)
  | succ f => simp [nextPidAux, hfree]

/-! ## Lemmas about the state machine -/

theorem transitions_crashed (ev : AppEvent) : TRANSITIONS (some .CRASHED) ev = none := by
  cases ev <;> rfl

theorem transitions_terminated (ev : AppEvent) : TRANSITIONS (some .TERMINATED) ev = none := by
  cases ev <;> rfl

/-- A (state, event) pair with no table entry throws and leaves the machine
untouched, with no hook call and no audit record. -/
theorem transition_invalid (m : Machine) (ev : AppEvent) (opts : Options) (now : Nat)
    (h : TRANSITIONS m.state ev = none) :
    m.transition ev opts now =
      { result := .error (.invalidTransition m.state ev), machine := m,
        records := [], calls := [] } := by
  obtain ⟨app, name, aliasName, state, c, l⟩ := m
  simp only at h
  cases state with
  | none => cases ev <;> simp_all [Machine.transition, TRANSITIONS]
  | some s => cases s <;> cases ev <;> simp_all [Machine.transition, TRANSITIONS]

/-- Every event is rejected on a crashed machine, unchanged. -/
theorem transition_crashed (m : Machine) (ev : AppEvent) (opts : Options) (now : Nat)
    (h : m.state = some .CRASHED) :
    m.transition ev opts now =
      { result := .error (.invalidTransition (some .CRASHED) ev), machine := m,
        records := [], calls := [] } := by
  have := transition_invalid m ev opts now (by rw [h]; exact transitions_crashed ev)
  rwa [h] at this

/-- A transition with a table entry whose effect reports a hook error ends in
`CRASHED` with the error re-raised. -/
theorem transition_hook_error (m : Machine) (ev : AppEvent) (opts : Options) (now : Nat)
    (toS : AppState) (k : EffectKind) (msg : String) (calls : List HookCall)
    (hT : TRANSITIONS m.state ev = some (toS, k))
    (hE : runEffect k m.app opts = (calls, .error msg)) :
    m.transition ev opts now =
      { result := .error (.hookError msg)
        machine := { m with state := some .CRASHED, lastTransitionAt := now }
        records := [{ name := m.name, aliasName := m.aliasName, fromState := m.state, ev := ev,
                      toState := .CRASHED, atTime := none, error := some msg }]
        calls := calls } := by
  simp only [Machine.transition, hT, Machine.applyEntry, hE]

/-- A transition with a table entry whose effect succeeds commits the target
state and emits the success record carrying `at`. -/
theorem transition_hook_ok (m : Machine) (ev : AppEvent) (opts : Options) (now : Nat)
    (toS : AppState) (k : EffectKind) (calls : List HookCall)
    (hT : TRANSITIONS m.state ev = some (toS, k))
    (hE : runEffect k m.app opts = (calls, .ok ())) :
    m.transition ev opts now =
      { result := .ok toS
        machine := { m with state := some toS, lastTransitionAt := now }
        records := [{ name := m.name, aliasName := m.aliasName, fromState := m.state, ev := ev,
                      toState := toS, atTime := some now, error := none }]
        calls := calls } := by
  simp only [Machine.transition, hT, Machine.applyEntry, hE]

/-- `updateInstance` resolves back to the written instance. -/
theorem getInstance_updateInstance_self (m : AppsModule) (name a : String)
    (inst : Instance) (e : RegistryEntry) (he : aget m.registry name = some e) :
    (m.updateInstance name a inst).getInstance name a = some inst := by
  unfold AppsModule.updateInstance AppsModule.getInstance
  rw [he]
  simp [aget_aset]

/-! ## Claim theorems -/

/-- C2: the transition table has no entry for any `(ACTIVE_*, ACTIVATE_*)`
pair, so activating an instance that is in `ACTIVE_FOREGROUND` or
`ACTIVE_BACKGROUND` — in the other mode or even the same one — throws
`Invalid transition` without invoking `onActivate` and leaves the state
untouched; concretely, `activate('worker','1001',{mode:'background'})` on an
`ACTIVE_FOREGROUND` instance fails and the status is unchanged.  This
contradicts the claim and the module's own documented precondition
`INACTIVE | ACTIVE_*` for `activate`. -/
theorem c2_activate_from_active_rejected :
    TRANSITIONS (some .ACTIVE_FOREGROUND) .ACTIVATE_BACKGROUND = none ∧
    TRANSITIONS (some .ACTIVE_BACKGROUND) .ACTIVATE_FOREGROUND = none ∧
    TRANSITIONS (some .ACTIVE_FOREGROUND) .ACTIVATE_FOREGROUND = none ∧
    TRANSITIONS (some .ACTIVE_BACKGROUND) .ACTIVATE_BACKGROUND = none ∧
    (c3act.st.activate "worker" "1001" { mode := some "background" } 15).result
      = .error (.invalidTransition (some .ACTIVE_FOREGROUND) .ACTIVATE_BACKGROUND) ∧
    (c3act.st.activate "worker" "1001" { mode := some "background" } 15).calls = [] ∧
    (c3act.st.activate "worker" "1001" { mode := some "background" } 15).st.status "worker" "1001"
      = c3act.st.status "worker" "1001" ∧
    c3act.st.status "worker" "1001"
      = .ok { name := "worker", aliasName := "1001", pid := 1001,
              state := some .ACTIVE_FOREGROUND, createdAt := 10, lastTransitionAt := 11 } :=
  ⟨rfl, rfl, rfl, rfl, rfl, rfl, rfl, rfl⟩

/-- C3: from a fresh orchestrator with class `worker` registered and no
autostart, `spawn('worker')` returns `{alias:'1001', handle:1001}` (first
handle `1001`, default alias its decimal string), the
activate/suspend/resume chain reaches `ACTIVE_FOREGROUND`, `SUSPENDED` and
`INACTIVE`, `stop` removes the instance from the registry and every index, and
a final `status` raises `InstanceNotRunning`. -/
theorem c3_end_to_end :
    c3spawn.result = .ok { aliasName := "1001", pid := some 1001 } ∧
    c3act.result = .ok () ∧
    c3act.st.status "worker" "1001"
      = .ok { name := "worker", aliasName := "1001", pid := 1001,
              state := some .ACTIVE_FOREGROUND, createdAt := 10, lastTransitionAt := 11 } ∧
    c3susp.result = .ok () ∧
    c3susp.st.status "worker" "1001"
      = .ok { name := "worker", aliasName := "1001", pid := 1001,
              state := some .SUSPENDED, createdAt := 10, lastTransitionAt := 12 } ∧
    c3res.result = .ok () ∧
    c3res.st.status "worker" "1001"
      = .ok { name := "worker", aliasName := "1001", pid := 1001,
              state := some .INACTIVE, createdAt := 10, lastTransitionAt := 13 } ∧
    c3stop.result = .ok () ∧
    c3stop.st.getInstance "worker" "1001" = none ∧
    c3stop.st.instanceIndex = [] ∧
    c3stop.st.processIndex = [] ∧
    c3stop.st.globalAliasIndex = [] ∧
    c3stop.st.status "worker" "1001" = .error (.instanceNotRunning "worker" "1001") :=
  ⟨rfl, rfl, rfl, rfl, rfl, rfl, rfl, rfl, rfl, rfl, rfl, rfl, rfl⟩

/-- C6: a `(state, event)` pair with no transition table entry fails with
`InvalidTransition`: no hook is invoked, no record is emitted, and the machine
— its `state` and `lastTransitionAt` included — is returned untouched; in
particular `TERMINATED` and `CRASHED` have no entry for any event, and
`DEACTIVATE` from `INACTIVE` and `RESUME` outside `SUSPENDED` have none. -/
theorem c6_invalid_pair_rejected_unchanged :
    (∀ (m : Machine) (ev : AppEvent) (opts : Options) (now : Nat),
      TRANSITIONS m.state ev = none →
      m.transition ev opts now =
        { result := .error (.invalidTransition m.state ev), machine := m,
          records := [], calls := [] }) ∧
    (∀ ev, TRANSITIONS (some .TERMINATED) ev = none) ∧
    (∀ ev, TRANSITIONS (some .CRASHED) ev = none) ∧
    TRANSITIONS (some .INACTIVE) .DEACTIVATE = none ∧
    TRANSITIONS (some .INACTIVE) .RESUME = none ∧
    TRANSITIONS (some .ACTIVE_FOREGROUND) .RESUME = none ∧
    TRANSITIONS (some .ACTIVE_BACKGROUND) .RESUME = none ∧
    TRANSITIONS (some .TERMINATING) .RESUME = none :=
  ⟨transition_invalid, transitions_terminated, transitions_crashed,
   rfl, rfl, rfl, rfl, rfl⟩

/-- C6 witness: `resume` on a concrete `INACTIVE` machine is rejected
unchanged. -/
theorem c6_witness :
    (Machine.mk plainApp "w" "a" (some .INACTIVE) 0 0).transition .RESUME {} 3 =
      { result := .error (.invalidTransition (some .INACTIVE) .RESUME)
        machine := Machine.mk plainApp "w" "a" (some .INACTIVE) 0 0
        records := [], calls := [] } :=
  c6_invalid_pair_rejected_unchanged.1
    (Machine.mk plainApp "w" "a" (some .INACTIVE) 0 0) .RESUME {} 3 rfl

/-- C7 counterexample: the audit record of a crashed transition does not carry
the `at` timestamp (the crash-path `emit` omits the `at` key), even though
`lastTransitionAt` itself is updated — refuting the claim that the crashed
record carries both the error and `at`. -/
theorem c7_crash_record_counterexample :
    (crashingMachine.transition .ACTIVATE_FOREGROUND {} 5).records =
      [{ name := "w", aliasName := "a", fromState := some .INACTIVE,
         ev := .ACTIVATE_FOREGROUND, toState := .CRASHED, atTime := none,
         error := some "boom" }] ∧
    (crashingMachine.transition .ACTIVATE_FOREGROUND {} 5).machine.lastTransitionAt = 5 :=
  ⟨rfl, rfl⟩

/-- C7 amended: every transition with a table entry updates
`lastTransitionAt` and emits exactly one audit record
`{name, alias, from, event(on), to, ...}`; a successful transition's record
carries `at` and no error, while a crashed transition's record carries the
error but omits `at`. -/
theorem c7_audit_amended (m : Machine) (ev : AppEvent) (opts : Options) (now : Nat)
    (toS : AppState) (k : EffectKind)
    (hT : TRANSITIONS m.state ev = some (toS, k)) :
    (m.transition ev opts now).records.length = 1 ∧
    (m.transition ev opts now).machine.lastTransitionAt = now ∧
    ((runEffect k m.app opts).2 = .ok () →
      (m.transition ev opts now).records =
        [{ name := m.name, aliasName := m.aliasName, fromState := m.state, ev := ev,
           toState := toS, atTime := some now, error := none }]) ∧
    (∀ msg, (runEffect k m.app opts).2 = .error msg →
      (m.transition ev opts now).records =
        [{ name := m.name, aliasName := m.aliasName, fromState := m.state, ev := ev,
           toState := .CRASHED, atTime := none, error := some msg }]) := by
  rcases hE : runEffect k m.app opts with ⟨calls, res⟩
  cases res with
  | ok u =>
    cases u
    have ht := transition_hook_ok m ev opts now toS k calls hT hE
    rw [ht]
    refine ⟨rfl, rfl, fun _ => rfl, fun msg hmsg => ?_⟩
    simp at hmsg
  | error msg =>
    have ht := transition_hook_error m ev opts now toS k msg calls hT hE
    rw [ht]
    refine ⟨rfl, rfl, fun hok => ?_, fun msg' hmsg => ?_⟩
    · simp at hok
    · simp at hmsg
      subst hmsg
      rfl

/-- C7 witness: the amended statement applied to a concrete crashing
transition. -/
theorem c7_witness :
    (crashingMachine.transition .ACTIVATE_FOREGROUND {} 7).records.length = 1 ∧
    (crashingMachine.transition .ACTIVATE_FOREGROUND {} 7).machine.lastTransitionAt = 7 :=
  ⟨(c7_audit_amended crashingMachine .ACTIVATE_FOREGROUND {} 7
      .ACTIVE_FOREGROUND (.activateMode "foreground") rfl).1,
   (c7_audit_amended crashingMachine .ACTIVATE_FOREGROUND {} 7
      .ACTIVE_FOREGROUND (.activateMode "foreground") rfl).2.1⟩

/-- C4: a transition whose hook throws ends in `CRASHED` (whatever the nominal
target) with the error re-raised and `lastTransitionAt` stamped; a crashed
machine rejects every further event unchanged; and at the orchestrator level
every lifecycle command on a crashed instance fails with the instance still
present in `CRASHED`, while `status` (inspection) still succeeds. -/
theorem c4_hook_error_terminal_crash :
    (∀ (m : Machine) (ev : AppEvent) (opts : Options) (now : Nat) (toS : AppState)
        (k : EffectKind) (msg : String) (calls : List HookCall),
      TRANSITIONS m.state ev = some (toS, k) →
      runEffect k m.app opts = (calls, .error msg) →
      (m.transition ev opts now).result = .error (.hookError msg) ∧
      (m.transition ev opts now).machine.state = some .CRASHED ∧
      (m.transition ev opts now).machine.lastTransitionAt = now) ∧
    (∀ (m : Machine) (ev : AppEvent) (opts : Options) (now : Nat),
      m.state = some .CRASHED →
      (m.transition ev opts now).result = .error (.invalidTransition (some .CRASHED) ev) ∧
      (m.transition ev opts now).machine = m) ∧
    (∀ (mo : AppsModule) (name a sig : String) (inst : Instance) (opts : Options) (now : Nat),
      mo.getInstance name a = some inst → inst.machine.state = some .CRASHED →
      isOkE (mo.activate name a opts now).result = false ∧
      isOkE (mo.deactivate name a opts now).result = false ∧
      isOkE (mo.suspend name a opts now).result = false ∧
      isOkE (mo.resume name a opts now).result = false ∧
      isOkE (mo.stop name a opts now).result = false ∧
      isOkE (mo.signal name a sig opts now).result = false ∧
      (mo.activate name a opts now).st.getInstance name a = some inst ∧
      (mo.deactivate name a opts now).st.getInstance name a = some inst ∧
      (mo.suspend name a opts now).st.getInstance name a = some inst ∧
      (mo.resume name a opts now).st.getInstance name a = some inst ∧
      (mo.stop name a opts now).st.getInstance name a = some inst ∧
      (mo.signal name a sig opts now).st.getInstance name a = some inst ∧
      mo.status name a =
        .ok ({ name := name, aliasName := a, pid := inst.pid,
               state := some .CRASHED, createdAt := inst.machine.createdAt,
               lastTransitionAt := inst.machine.lastTransitionAt } : StatusSnapshot)) := by
  refine ⟨?_, ?_, ?_⟩
  · intro m ev opts now toS k msg calls hT hE
    rw [transition_hook_error m ev opts now toS k msg calls hT hE]
    exact ⟨rfl, rfl, rfl⟩
  · intro m ev opts now h
    rw [transition_crashed m ev opts now h]
    exact ⟨rfl, rfl⟩
  · intro mo name a sig inst opts now hI hC
    obtain ⟨e, he, hei⟩ : ∃ e, aget mo.registry name = some e ∧ aget e.instances a = some inst := by
      unfold AppsModule.getInstance at hI
      cases hr : aget mo.registry name with
      | none => rw [hr] at hI; simp at hI
      | some e => rw [hr] at hI; exact ⟨e, rfl, by simpa using hI⟩
    have hGet : ∀ ev opts now, (mo.driveEvent name a ev opts now).result
        = .error (.invalidTransition (some .CRASHED) ev) ∧
        (mo.driveEvent name a ev opts now).st.getInstance name a = some inst := by
      intro ev opts now
      have hstep := transition_crashed inst.machine ev opts now hC
      simp only [AppsModule.driveEvent, hI, hstep]
      exact ⟨trivial, getInstance_updateInstance_self mo name a inst e he⟩
    have hStopStep := transition_crashed inst.machine .STOP { force := opts.force } now hC
    have hSigStep := transition_crashed inst.machine .SIGNAL
      { opts with sig := some sig } now hC
    have hSusp : (mo.suspend name a opts now) = mo.driveEvent name a .SUSPEND opts now := by
      simp only [AppsModule.suspend, hI]
      rw [if_pos (show inst.state ≠ some .SUSPENDED by simp [Instance.state, hC])]
    have hAct : (mo.activate name a opts now)
        = mo.driveEvent name a .ACTIVATE_BACKGROUND opts now ∨
        (mo.activate name a opts now) = mo.driveEvent name a .ACTIVATE_FOREGROUND opts now := by
      by_cases hmode : opts.mode = some "background"
      · exact Or.inl (by simp only [AppsModule.activate, if_pos hmode])
      · exact Or.inr (by simp only [AppsModule.activate, if_neg hmode])
    refine ⟨?_, ?_, ?_, ?_, ?_, ?_, ?_, ?_, ?_, ?_, ?_, ?_, ?_⟩
    · rcases hAct with h | h <;> rw [h]
      · rw [(hGet .ACTIVATE_BACKGROUND opts now).1]; rfl
      · rw [(hGet .ACTIVATE_FOREGROUND opts now).1]; rfl
    · rw [show mo.deactivate name a opts now = mo.driveEvent name a .DEACTIVATE opts now from rfl]
      rw [(hGet .DEACTIVATE opts now).1]; rfl
    · rw [hSusp, (hGet .SUSPEND opts now).1]; rfl
    · rw [show mo.resume name a opts now = mo.driveEvent name a .RESUME opts now from rfl]
      rw [(hGet .RESUME opts now).1]; rfl
    · simp only [AppsModule.stop, he, hei, hStopStep]
      rfl
    · simp only [AppsModule.signal, hI, Machine.signalStep, hSigStep]
      rfl
    · rcases hAct with h | h <;> rw [h]
      · exact (hGet .ACTIVATE_BACKGROUND opts now).2
      · exact (hGet .ACTIVATE_FOREGROUND opts now).2
    · rw [show mo.deactivate name a opts now = mo.driveEvent name a .DEACTIVATE opts now from rfl]
      exact (hGet .DEACTIVATE opts now).2
    · rw [hSusp]
      exact (hGet .SUSPEND opts now).2
    · rw [show mo.resume name a opts now = mo.driveEvent name a .RESUME opts now from rfl]
      exact (hGet .RESUME opts now).2
    · simp only [AppsModule.stop, he, hei, hStopStep]
      exact getInstance_updateInstance_self mo name a inst e he
    · simp only [AppsModule.signal, hI, Machine.signalStep, hSigStep]
      exact getInstance_updateInstance_self mo name a inst e he
    · simp only [AppsModule.status, hI, hC]

/-- Shape of a `spawn` that actually creates: pid allocated, workload
constructed, `CREATE` driven, instance registered under all four structures. -/
theorem spawn_creates (m : AppsModule) (name aliasName : String) (opts : Options) (now : Nat)
    (e : RegistryEntry) (app : App) (calls : List HookCall)
    (hr : aget m.registry name = some e) (hc : e.appClass = some app)
    (hx : ahas e.instances aliasName = false)
    (hcr : runEffect .create app opts = (calls, .ok ())) :
    m.spawn name (some aliasName) opts now =
      (let p := nextPidAux m.processIndex (m.processIndex.length + 1) m.pidSeq
       let inst : Instance :=
         { app := app, pid := p,
           machine := { app := app, name := name, aliasName := aliasName,
                        state := some .INACTIVE, createdAt := now, lastTransitionAt := now } }
       ⟨.ok { aliasName := aliasName, pid := some p },
        { registry := aset m.registry name
            { e with instances := aset e.instances aliasName inst },
          pidSeq := p,
          processIndex := aset m.processIndex p ⟨name, aliasName⟩,
          instanceIndex := aset m.instanceIndex (ikey name aliasName) p,
          globalAliasIndex := aset m.globalAliasIndex aliasName ⟨name, aliasName⟩,
          aliasSeq := m.aliasSeq },
        calls, true⟩) := by
  have hstep := transition_hook_ok
    { app := app, name := name, aliasName := aliasName, state := none,
      createdAt := now, lastTransitionAt := now }
    .CREATE opts now .INACTIVE .create calls rfl hcr
  simp only [AppsModule.spawn, hr, hc, AppsModule.nextPid, hx, Bool.false_eq_true,
    if_false, hstep]

/-- Shape of an idempotent `spawn` hit: a pid is still taken from the counter,
but nothing is constructed, no hook runs, and the existing pair is returned. -/
theorem spawn_existing (m : AppsModule) (name aliasName : String) (opts : Options) (now : Nat)
    (e : RegistryEntry) (app : App)
    (hr : aget m.registry name = some e) (hc : e.appClass = some app)
    (hx : ahas e.instances aliasName = true) :
    m.spawn name (some aliasName) opts now =
      ⟨.ok { aliasName := aliasName,
             pid := optTruthy (aget m.instanceIndex (ikey name aliasName)) },
       { m with pidSeq := nextPidAux m.processIndex (m.processIndex.length + 1) m.pidSeq },
       [], false⟩ := by
  simp only [AppsModule.spawn, hr, hc, AppsModule.nextPid, hx, if_true]

/-- Shape of a `spawn` whose `onCreate` throws: the error is re-raised and only
the pid counter has moved. -/
theorem spawn_create_error (m : AppsModule) (name aliasName : String) (opts : Options)
    (now : Nat) (e : RegistryEntry) (app : App) (msg : String) (calls : List HookCall)
    (hr : aget m.registry name = some e) (hc : e.appClass = some app)
    (hx : ahas e.instances aliasName = false)
    (hcr : runEffect .create app opts = (calls, .error msg)) :
    m.spawn name (some aliasName) opts now =
      ⟨.error (.hookError msg),
       { m with pidSeq := nextPidAux m.processIndex (m.processIndex.length + 1) m.pidSeq },
       calls, true⟩ := by
  have hstep := transition_hook_error
    { app := app, name := name, aliasName := aliasName, state := none,
      createdAt := now, lastTransitionAt := now }
    .CREATE opts now .INACTIVE .create msg calls rfl hcr
  simp only [AppsModule.spawn, hr, hc, AppsModule.nextPid, hx, Bool.false_eq_true,
    if_false, hstep]

/-- C4 witness: a concrete crash through `onActivate` followed by rejected
commands on the crashed instance. -/
theorem c4_witness :
    (crashingMachine.transition .ACTIVATE_FOREGROUND {} 9).result
      = .error (.hookError "boom") ∧
    (crashingMachine.transition .ACTIVATE_FOREGROUND {} 9).machine.state
      = some .CRASHED ∧
    isOkE ((runCmds c4Cmds).resume "w" "a" {} 10).result = false := by
  have hA := (c4_hook_error_terminal_crash.1 crashingMachine .ACTIVATE_FOREGROUND {} 9
    .ACTIVE_FOREGROUND (.activateMode "foreground") "boom" [.activate "foreground"] rfl rfl)
  have hB := (c4_hook_error_terminal_crash.2.2 (runCmds c4Cmds) "w" "a" "SIGHUP"
    (((runCmds c4Cmds).getInstance "w" "a").getD ⟨plainApp, 0, crashingMachine⟩) {} 10 rfl rfl)
  exact ⟨hA.1, hA.2.1, hB.2.2.2.1⟩

/-- C8: while an instance with `(name, alias)` is live, a second
`spawn(name, alias)` returns the same `{alias, handle}` pair as the creating
call, leaves the registry and every index untouched, constructs no workload
object and invokes no hook (only the pid counter moves). -/
theorem c8_spawn_idempotent (m : AppsModule) (name aliasName : String)
    (opts opts' : Options) (now now' : Nat) (e : RegistryEntry) (app : App)
    (calls : List HookCall)
    (hr : aget m.registry name = some e) (hc : e.appClass = some app)
    (hx : ahas e.instances aliasName = false)
    (hcr : runEffect .create app opts = (calls, .ok ())) :
    ∃ p, (m.spawn name (some aliasName) opts now).result
        = .ok { aliasName := aliasName, pid := some p } ∧
      ((m.spawn name (some aliasName) opts now).st.spawn
          name (some aliasName) opts' now').result
        = .ok { aliasName := aliasName, pid := some p } ∧
      ((m.spawn name (some aliasName) opts now).st.spawn
          name (some aliasName) opts' now').st.registry
        = (m.spawn name (some aliasName) opts now).st.registry ∧
      ((m.spawn name (some aliasName) opts now).st.spawn
          name (some aliasName) opts' now').st.instanceIndex
        = (m.spawn name (some aliasName) opts now).st.instanceIndex ∧
      ((m.spawn name (some aliasName) opts now).st.spawn
          name (some aliasName) opts' now').st.processIndex
        = (m.spawn name (some aliasName) opts now).st.processIndex ∧
      ((m.spawn name (some aliasName) opts now).st.spawn
          name (some aliasName) opts' now').st.globalAliasIndex
        = (m.spawn name (some aliasName) opts now).st.globalAliasIndex ∧
      ((m.spawn name (some aliasName) opts now).st.spawn
          name (some aliasName) opts' now').calls = [] ∧
      ((m.spawn name (some aliasName) opts now).st.spawn
          name (some aliasName) opts' now').constructed = false := by
  rw [spawn_creates m name aliasName opts now e app calls hr hc hx hcr]
  set p := nextPidAux m.processIndex (m.processIndex.length + 1) m.pidSeq with hp
  have hppos : 0 < p := Nat.lt_of_le_of_lt (Nat.zero_le m.pidSeq) (nextPidAux_gt _ _ _)
  simp only
  set inst : Instance :=
    { app := app, pid := p,
      machine := { app := app, name := name, aliasName := aliasName,
                   state := some .INACTIVE, createdAt := now, lastTransitionAt := now } }
    with hinst
  set m1 : AppsModule :=
    { registry := aset m.registry name { e with instances := aset e.instances aliasName inst },
      pidSeq := p,
      processIndex := aset m.processIndex p ⟨name, aliasName⟩,
      instanceIndex := aset m.instanceIndex (ikey name aliasName) p,
      globalAliasIndex := aset m.globalAliasIndex aliasName ⟨name, aliasName⟩,
      aliasSeq := m.aliasSeq } with hm1
  have hr2 : aget m1.registry name = some { e with instances := aset e.instances aliasName inst } := by
    rw [hm1]
    simp only
    rw [aget_aset]
    simp
  have hx2 : ahas ({ e with instances := aset e.instances aliasName inst }).instances aliasName
      = true := by
    simp only
    rw [ahas_true_iff]
    exact ⟨inst, by rw [aget_aset]; simp⟩
  rw [spawn_existing m1 name aliasName opts' now'
    { e with instances := aset e.instances aliasName inst } app hr2 hc hx2]
  refine ⟨p, rfl, ?_, rfl, rfl, rfl, rfl, rfl, rfl⟩
  have hidx : aget m1.instanceIndex (ikey name aliasName) = some p := by
    rw [hm1]
    simp only
    rw [aget_aset]
    simp
  simp only [hidx, optTruthy, if_neg (Nat.pos_iff_ne_zero.mp hppos)]

/-- C8 witness: spawning `("worker", "w1")` twice on a concrete module. -/
theorem c8_witness :
    ∃ p, (c3m0.spawn "worker" (some "w1") {} 1).result
        = .ok { aliasName := "w1", pid := some p } ∧
      ((c3m0.spawn "worker" (some "w1") {} 1).st.spawn "worker" (some "w1") {} 2).result
        = .ok { aliasName := "w1", pid := some p } ∧
      ((c3m0.spawn "worker" (some "w1") {} 1).st.spawn "worker" (some "w1") {} 2).st.registry
        = (c3m0.spawn "worker" (some "w1") {} 1).st.registry ∧
      ((c3m0.spawn "worker" (some "w1") {} 1).st.spawn "worker" (some "w1") {} 2).st.instanceIndex
        = (c3m0.spawn "worker" (some "w1") {} 1).st.instanceIndex ∧
      ((c3m0.spawn "worker" (some "w1") {} 1).st.spawn "worker" (some "w1") {} 2).st.processIndex
        = (c3m0.spawn "worker" (some "w1") {} 1).st.processIndex ∧
      ((c3m0.spawn "worker" (some "w1") {} 1).st.spawn "worker" (some "w1") {} 2).st.globalAliasIndex
        = (c3m0.spawn "worker" (some "w1") {} 1).st.globalAliasIndex ∧
      ((c3m0.spawn "worker" (some "w1") {} 1).st.spawn "worker" (some "w1") {} 2).calls = [] ∧
      ((c3m0.spawn "worker" (some "w1") {} 1).st.spawn "worker" (some "w1") {} 2).constructed
        = false :=
  c8_spawn_idempotent c3m0 "worker" "w1" {} {} 1 2
    { appClass := some plainApp } plainApp [] rfl rfl rfl rfl

/-- C9: `broadcast` on a registered class returns (never raises) one record
per live instance; on the concrete three-instance class where exactly one
`work` method throws, the three records carry the two values and the one
error, with exactly one `ok:false`. -/
theorem c9_broadcast_isolation :
    (∀ (m : AppsModule) (name method : String) (args : List Nat) (entry : RegistryEntry),
      aget m.registry name = some entry →
      ∃ rs, m.broadcast name method args = .ok rs ∧ rs.length = entry.instances.length) ∧
    bcModule.broadcast "svc" "work" [] =
      .ok [{ aliasName := "a1", pid := 1001, ok := true, value := some 1, error := none },
           { aliasName := "a2", pid := 1002, ok := false, value := none, error := some "boom" },
           { aliasName := "a3", pid := 1003, ok := true, value := some 3, error := none }] ∧
    (∃ rs, bcModule.broadcast "svc" "work" [] = .ok rs ∧
      rs.countP (fun r => !r.ok) = 1 ∧ rs.length = 3) := by
  refine ⟨?_, rfl, ?_⟩
  · intro m name method args entry h
    cases hb : m.broadcast name method args with
    | error e0 =>
      unfold AppsModule.broadcast at hb
      simp only [h] at hb
      exact Except.noConfusion hb
    | ok rs =>
      refine ⟨rs, rfl, ?_⟩
      unfold AppsModule.broadcast at hb
      simp only [h, Except.ok.injEq] at hb
      rw [← hb]
      simp
  · exact ⟨_, rfl, rfl, rfl⟩

/-- C9 witness: the general part applied to the concrete three-instance
class. -/
theorem c9_witness :
    ∃ rs, bcModule.broadcast "svc" "work" [] = .ok rs ∧ rs.length = 3 :=
  c9_broadcast_isolation.1 bcModule "svc" "work" []
    { appClass := some bcApp1,
      instances :=
        [("a1", ⟨bcApp1, 1001, bcMachine bcApp1 "a1"⟩),
         ("a2", ⟨bcApp2, 1002, bcMachine bcApp2 "a2"⟩),
         ("a3", ⟨bcApp3, 1003, bcMachine bcApp3 "a3"⟩)] } rfl

/-- C10: when `onCreate` throws during `spawn(name, alias)`, the error is
re-raised and nothing is registered: registry and all three indices are
exactly as before (so `status` still reports `InstanceNotRunning` and `list`
is unchanged — no `CRASHED` instance is visible), although the workload was
constructed and one fresh handle was consumed from the counter. -/
theorem c10_create_crash_registers_nothing (m : AppsModule) (name aliasName : String)
    (opts : Options) (now : Nat) (e : RegistryEntry) (app : App) (msg : String)
    (calls : List HookCall)
    (hr : aget m.registry name = some e) (hc : e.appClass = some app)
    (hx : ahas e.instances aliasName = false)
    (hcr : runEffect .create app opts = (calls, .error msg))
    (hfree : ahas m.processIndex (m.pidSeq + 1) = false) :
    (m.spawn name (some aliasName) opts now).result = .error (.hookError msg) ∧
    (m.spawn name (some aliasName) opts now).st = { m with pidSeq := m.pidSeq + 1 } ∧
    (m.spawn name (some aliasName) opts now).st.status name aliasName
      = .error (.instanceNotRunning name aliasName) ∧
    (m.spawn name (some aliasName) opts now).st.list = m.list ∧
    (m.spawn name (some aliasName) opts now).constructed = true := by
  have hnp : nextPidAux m.processIndex (m.processIndex.length + 1) m.pidSeq = m.pidSeq + 1 :=
    nextPidAux_free m.processIndex (m.processIndex.length + 1) m.pidSeq hfree (Nat.succ_pos _)
  rw [spawn_create_error m name aliasName opts now e app msg calls hr hc hx hcr, hnp]
  refine ⟨rfl, rfl, ?_, rfl, rfl⟩
  have hgi : aget e.instances aliasName = none := (ahas_false_iff _ _).mp hx
  simp only [AppsModule.status, AppsModule.getInstance, hr, hgi, Option.some_bind]

/-- C5 counterexample: with classes `A` and `B` each holding a live instance
under alias `"x"` (all spawns succeed), renaming `A`'s instance `x → y`
succeeds, yet afterwards the `(name, alias)` index still holds `B`'s entry for
the old alias (`"B:x"`) and `B`'s registry entry still lists `"x"` — and the
rename even dropped `B`'s `"x"` entry from the global alias index.  This
refutes "no index or registry entry still contains the old alias". -/
theorem c5_rename_counterexample :
    allOk initModule sharedAliasCmds = true ∧
    isOkE ((runCmds sharedAliasCmds).renameAlias "A" "x" "y").1 = true ∧
    ahas ((runCmds sharedAliasCmds).renameAlias "A" "x" "y").2.instanceIndex "B:x" = true ∧
    (((runCmds sharedAliasCmds).renameAlias "A" "x" "y").2.getInstance "B" "x").isSome = true ∧
    aget ((runCmds sharedAliasCmds).renameAlias "A" "x" "y").2.globalAliasIndex "x" = none :=
  ⟨rfl, rfl, rfl, rfl, rfl⟩

/-- C5 amended: rename is atomic and validated for the renamed instance's own
class: after a success no structure of that class still holds the old alias,
the global index maps only the new alias, and the new alias resolves to the
same handle as the old one did; a same-class collision raises `AliasCollision`
leaving the module untouched; renaming to the current alias is a success
without touching anything.  (Entries of other classes that share the old alias
are outside the guarantee: the success path deletes the shared global-alias
entry and leaves the other class's index entries in place.) -/
theorem c5_rename_amended :
    (∀ (m : AppsModule) (name oldAlias newAlias : String) (e : RegistryEntry)
        (inst : Instance) (pid : Nat) (pd : Identity),
      aget m.registry name = some e →
      aget e.instances oldAlias = some inst →
      ahas e.instances newAlias = false →
      ahas m.globalAliasIndex newAlias = false →
      aget m.instanceIndex (ikey name oldAlias) = some pid →
      pid ≠ 0 →
      aget m.processIndex pid = some pd →
      newAlias ≠ "" → newAlias ≠ oldAlias →
      keysNodup e.instances → keysNodup m.instanceIndex → keysNodup m.globalAliasIndex →
      ((m.renameAlias name oldAlias newAlias).1
          = .ok { name := name, oldAlias := oldAlias, newAlias := newAlias,
                  pid := some pid, noop := false } ∧
        (m.renameAlias name oldAlias newAlias).2.getInstance name oldAlias = none ∧
        (m.renameAlias name oldAlias newAlias).2.getInstance name newAlias = some inst ∧
        aget (m.renameAlias name oldAlias newAlias).2.instanceIndex (ikey name oldAlias)
          = none ∧
        aget (m.renameAlias name oldAlias newAlias).2.instanceIndex (ikey name newAlias)
          = some pid ∧
        aget (m.renameAlias name oldAlias newAlias).2.globalAliasIndex oldAlias = none ∧
        aget (m.renameAlias name oldAlias newAlias).2.globalAliasIndex newAlias
          = some ⟨name, newAlias⟩ ∧
        aget (m.renameAlias name oldAlias newAlias).2.processIndex pid
          = some ⟨name, newAlias⟩ ∧
        (m.renameAlias name oldAlias newAlias).2.getPid name newAlias = .ok pid ∧
        m.getPid name oldAlias = .ok pid)) ∧
    (∀ (m : AppsModule) (name oldAlias newAlias : String) (e : RegistryEntry)
        (inst : Instance),
      aget m.registry name = some e →
      aget e.instances oldAlias = some inst →
      ahas e.instances newAlias = true →
      newAlias ≠ "" → newAlias ≠ oldAlias →
      (m.renameAlias name oldAlias newAlias).1 = .error (.aliasExistsForApp name newAlias) ∧
      (m.renameAlias name oldAlias newAlias).2 = m) ∧
    (∀ (m : AppsModule) (name oldAlias : String),
      oldAlias ≠ "" →
      (m.renameAlias name oldAlias oldAlias).1
        = .ok { name := name, oldAlias := oldAlias, newAlias := oldAlias,
                pid := optTruthy (aget m.instanceIndex (ikey name oldAlias)), noop := true } ∧
      (m.renameAlias name oldAlias oldAlias).2 = m) := by
  refine ⟨?_, ?_, ?_⟩
  · intro m name oldAlias newAlias e inst pid pd hr hi hnew hgl hpid hpid0 hproc hnn hne
      hIN hXN hGN
    have hkne : ikey name newAlias ≠ ikey name oldAlias := fun hk => hne (ikey_right_inj hk)
    simp only [AppsModule.renameAlias, if_neg hnn, if_neg hne, hr, hi, hnew, hgl, hpid,
      if_neg hpid0, hproc, Bool.false_eq_true, if_false]
    refine ⟨trivial, ?_, ?_, ?_, ?_, ?_, ?_, ?_, ?_, ?_⟩
    · simp [AppsModule.getInstance, aget_aset, aget_adel _ hIN, hne]
    · simp [AppsModule.getInstance, aget_aset]
    · simp [aget_aset, aget_adel _ hXN, hkne]
    · simp [aget_aset]
    · simp [aget_aset, aget_adel _ hGN, hne]
    · simp [aget_aset]
    · simp [aget_aset]
    · simp [AppsModule.getPid, aget_aset, hpid0]
    · simp [AppsModule.getPid, hpid, hpid0]
  · intro m name oldAlias newAlias e inst hr hi hnew hnn hne
    simp [AppsModule.renameAlias, hnn, hne, hr, hi, hnew]
  · intro m name oldAlias hnn
    simp [AppsModule.renameAlias, hnn]

/-- C5 witness: the amended statement at a concrete single-instance module,
renaming `x → y`. -/
theorem c5_witness :
    ((runCmds c5DemoCmds).renameAlias "A" "x" "y").1
      = .ok { name := "A", oldAlias := "x", newAlias := "y",
              pid := some 1001, noop := false } ∧
    aget ((runCmds c5DemoCmds).renameAlias "A" "x" "y").2.instanceIndex (ikey "A" "x")
      = none ∧
    ((runCmds c5DemoCmds).renameAlias "A" "x" "y").2.getPid "A" "y" = .ok 1001 :=
  have h := c5_rename_amended.1 (runCmds c5DemoCmds) "A" "x" "y"
    { appClass := some plainApp,
      instances := [("x", ⟨plainApp, 1001,
        ⟨plainApp, "A", "x", some .INACTIVE, 1, 1⟩⟩)] }
    ⟨plainApp, 1001, ⟨plainApp, "A", "x", some .INACTIVE, 1, 1⟩⟩ 1001 ⟨"A", "x"⟩
    rfl rfl rfl rfl rfl (by decide) rfl (by decide) (by decide)
    (by unfold keysNodup; decide) (by unfold keysNodup; decide) (by unfold keysNodup; decide)
  ⟨h.1, h.2.2.2.1, h.2.2.2.2.2.2.2.2.1⟩

/-- C10 witness: a concrete class whose `onCreate` throws `"boom"`. -/
theorem c10_witness :
    (c10m0.spawn "W" (some "a") {} 3).result = .error (.hookError "boom") ∧
    (c10m0.spawn "W" (some "a") {} 3).st = { c10m0 with pidSeq := 1001 } ∧
    (c10m0.spawn "W" (some "a") {} 3).st.status "W" "a"
      = .error (.instanceNotRunning "W" "a") ∧
    (c10m0.spawn "W" (some "a") {} 3).st.list = c10m0.list ∧
    (c10m0.spawn "W" (some "a") {} 3).constructed = true :=
  c10_create_crash_registers_nothing c10m0 "W" "a" {} 3
    { appClass := some createCrashApp } createCrashApp "boom" [.create]
    rfl rfl rfl rfl rfl

/-! ## The registry invariant: preservation by every command -/

theorem aget_aset_self {κ α : Type} [DecidableEq κ] (l : List (κ × α)) (k : κ) (v : α) :
    aget (aset l k v) k = some v := by
  rw [aget_aset, if_pos rfl]

theorem aget_aset_ne {κ α : Type} [DecidableEq κ] (l : List (κ × α)) {k k' : κ} (v : α)
    (h : k ≠ k') : aget (aset l k v) k' = aget l k' := by
  rw [aget_aset, if_neg h]

theorem aget_adel_self {κ α : Type} [DecidableEq κ] (l : List (κ × α)) (hl : keysNodup l)
    (k : κ) : aget (adel l k) k = none := by
  rw [aget_adel l hl, if_pos rfl]

theorem aget_adel_ne {κ α : Type} [DecidableEq κ] (l : List (κ × α)) (hl : keysNodup l)
    {k k' : κ} (h : k ≠ k') : aget (adel l k) k' = aget l k' := by
  rw [aget_adel l hl, if_neg h]

theorem getInstance_eq_some {m : AppsModule} {name a : String} {inst : Instance}
    (h : m.getInstance name a = some inst) :
    ∃ e, aget m.registry name = some e ∧ aget e.instances a = some inst := by
  unfold AppsModule.getInstance at h
  cases hr : aget m.registry name with
  | none => rw [hr] at h; simp at h
  | some e => rw [hr] at h; exact ⟨e, rfl, by simpa using h⟩

theorem WF_initModule : WF initModule := by
  refine ⟨?_, ?_, ?_, ?_, ?_, ?_, ?_, ?_, ?_, ?_⟩ <;>
    simp [initModule, keysNodup, aget]

theorem WF_pidSeq_bump (m : AppsModule) (hWF : WF m) (q : Nat) (hq : m.pidSeq ≤ q) :
    WF { m with pidSeq := q } :=
  ⟨hWF.regNodup, hWF.instNodup, hWF.procNodup, hWF.idxNodup, hWF.names,
   hWF.fwdIdx, hWF.fwdProc, hWF.procBwd, hWF.idxBwd,
   fun p pd hp => ⟨(hWF.pidBound p pd hp).1, le_trans (hWF.pidBound p pd hp).2 hq⟩⟩

/-- Replacing (or creating) a registry entry while keeping its instances map
preserves the invariant (`register`). -/
theorem WF_setEntry (m : AppsModule) (hWF : WF m) (name : String) (eN : RegistryEntry)
    (hnm : nameOk name)
    (hinst : eN.instances = (match aget m.registry name with
      | some e => e.instances
      | none => [])) :
    WF { m with registry := aset m.registry name eN } := by
  cases hr : aget m.registry name with
  | some e =>
    rw [hr] at hinst
    refine ⟨keysNodup_aset _ _ _ hWF.regNodup, ?_, hWF.procNodup, hWF.idxNodup,
      ?_, ?_, ?_, ?_, ?_, hWF.pidBound⟩
    · intro n' e' h'
      rw [aget_aset] at h'
      by_cases hn : name = n'
      · rw [if_pos hn] at h'
        obtain rfl : eN = e' := Option.some.inj h'
        rw [hinst]
        exact hWF.instNodup name e hr
      · rw [if_neg hn] at h'
        exact hWF.instNodup n' e' h'
    · intro n' e' h'
      rw [aget_aset] at h'
      by_cases hn : name = n'
      · exact hn ▸ hnm
      · rw [if_neg hn] at h'
        exact hWF.names n' e' h'
    · intro n' e' a' inst' h' hi'
      rw [aget_aset] at h'
      by_cases hn : name = n'
      · rw [if_pos hn] at h'
        obtain rfl : eN = e' := Option.some.inj h'
        rw [hinst] at hi'
        exact hWF.fwdIdx n' e a' inst' (hn ▸ hr) hi'
      · rw [if_neg hn] at h'
        exact hWF.fwdIdx n' e' a' inst' h' hi'
    · intro n' e' a' inst' h' hi'
      rw [aget_aset] at h'
      by_cases hn : name = n'
      · rw [if_pos hn] at h'
        obtain rfl : eN = e' := Option.some.inj h'
        rw [hinst] at hi'
        exact hWF.fwdProc n' e a' inst' (hn ▸ hr) hi'
      · rw [if_neg hn] at h'
        exact hWF.fwdProc n' e' a' inst' h' hi'
    · intro p pd hp
      obtain ⟨e0, inst0, he0, hi0, hpid⟩ := hWF.procBwd p pd hp
      by_cases hn : name = pd.name
      · have he : e0 = e := by
          rw [← hn, hr] at he0
          exact (Option.some.inj he0).symm
        refine ⟨eN, inst0, ?_, ?_, hpid⟩
        · rw [aget_aset, if_pos hn]
        · rw [hinst, ← he]
          exact hi0
      · exact ⟨e0, inst0, by rw [aget_aset, if_neg hn]; exact he0, hi0, hpid⟩
    · intro k p hk
      obtain ⟨n0, a0, e0, inst0, hke, he0, hi0, hpid⟩ := hWF.idxBwd k p hk
      by_cases hn : name = n0
      · have he : e0 = e := by
          rw [← hn, hr] at he0
          exact (Option.some.inj he0).symm
        refine ⟨n0, a0, eN, inst0, hke, ?_, ?_, hpid⟩
        · rw [aget_aset, if_pos hn]
        · rw [hinst, ← he]
          exact hi0
      · exact ⟨n0, a0, e0, inst0, hke,
          by rw [aget_aset, if_neg hn]; exact he0, hi0, hpid⟩
  | none =>
    rw [hr] at hinst
    refine ⟨keysNodup_aset _ _ _ hWF.regNodup, ?_, hWF.procNodup, hWF.idxNodup,
      ?_, ?_, ?_, ?_, ?_, hWF.pidBound⟩
    · intro n' e' h'
      rw [aget_aset] at h'
      by_cases hn : name = n'
      · rw [if_pos hn] at h'
        obtain rfl : eN = e' := Option.some.inj h'
        rw [hinst]
        simp [keysNodup]
      · rw [if_neg hn] at h'
        exact hWF.instNodup n' e' h'
    · intro n' e' h'
      rw [aget_aset] at h'
      by_cases hn : name = n'
      · exact hn ▸ hnm
      · rw [if_neg hn] at h'
        exact hWF.names n' e' h'
    · intro n' e' a' inst' h' hi'
      rw [aget_aset] at h'
      by_cases hn : name = n'
      · rw [if_pos hn] at h'
        obtain rfl : eN = e' := Option.some.inj h'
        rw [hinst] at hi'
        simp [aget] at hi'
      · rw [if_neg hn] at h'
        exact hWF.fwdIdx n' e' a' inst' h' hi'
    · intro n' e' a' inst' h' hi'
      rw [aget_aset] at h'
      by_cases hn : name = n'
      · rw [if_pos hn] at h'
        obtain rfl : eN = e' := Option.some.inj h'
        rw [hinst] at hi'
        simp [aget] at hi'
      · rw [if_neg hn] at h'
        exact hWF.fwdProc n' e' a' inst' h' hi'
    · intro p pd hp
      obtain ⟨e0, inst0, he0, hi0, hpid⟩ := hWF.procBwd p pd hp
      by_cases hn : name = pd.name
      · rw [← hn, hr] at he0
        exact Option.noConfusion he0
      · exact ⟨e0, inst0, by rw [aget_aset, if_neg hn]; exact he0, hi0, hpid⟩
    · intro k p hk
      obtain ⟨n0, a0, e0, inst0, hke, he0, hi0, hpid⟩ := hWF.idxBwd k p hk
      by_cases hn : name = n0
      · rw [← hn, hr] at he0
        exact Option.noConfusion he0
      · exact ⟨n0, a0, e0, inst0, hke,
          by rw [aget_aset, if_neg hn]; exact he0, hi0, hpid⟩

/-- Replacing an instance's machine in place (any lifecycle command write-back)
preserves the invariant: the pid and identity are untouched. -/
theorem WF_updateMachine (m : AppsModule) (hWF : WF m) (name a : String)
    (e : RegistryEntry) (inst : Instance) (mach : Machine)
    (hr : aget m.registry name = some e) (hi : aget e.instances a = some inst) :
    WF (m.updateInstance name a { inst with machine := mach }) := by
  unfold AppsModule.updateInstance
  rw [hr]
  simp only
  refine ⟨keysNodup_aset _ _ _ hWF.regNodup, ?_, hWF.procNodup, hWF.idxNodup,
    ?_, ?_, ?_, ?_, ?_, hWF.pidBound⟩
  · intro n' e' h'
    rw [aget_aset] at h'
    by_cases hn : name = n'
    · rw [if_pos hn] at h'
      obtain rfl := Option.some.inj h'
      exact keysNodup_aset _ _ _ (hWF.instNodup name e hr)
    · rw [if_neg hn] at h'
      exact hWF.instNodup n' e' h'
  · intro n' e' h'
    rw [aget_aset] at h'
    by_cases hn : name = n'
    · exact hn ▸ hWF.names name e hr
    · rw [if_neg hn] at h'
      exact hWF.names n' e' h'
  · intro n' e' a' inst' h' hi'
    rw [aget_aset] at h'
    by_cases hn : name = n'
    · rw [if_pos hn] at h'
      obtain rfl := Option.some.inj h'
      simp only at hi'
      rw [aget_aset] at hi'
      by_cases ha : a = a'
      · rw [if_pos ha] at hi'
        obtain rfl := Option.some.inj hi'
        exact hn ▸ ha ▸ hWF.fwdIdx name e a inst hr hi
      · rw [if_neg ha] at hi'
        exact hWF.fwdIdx n' e a' inst' (hn ▸ hr) hi'
    · rw [if_neg hn] at h'
      exact hWF.fwdIdx n' e' a' inst' h' hi'
  · intro n' e' a' inst' h' hi'
    rw [aget_aset] at h'
    by_cases hn : name = n'
    · rw [if_pos hn] at h'
      obtain rfl := Option.some.inj h'
      simp only at hi'
      rw [aget_aset] at hi'
      by_cases ha : a = a'
      · rw [if_pos ha] at hi'
        obtain rfl := Option.some.inj hi'
        exact hn ▸ ha ▸ hWF.fwdProc name e a inst hr hi
      · rw [if_neg ha] at hi'
        exact hWF.fwdProc n' e a' inst' (hn ▸ hr) hi'
    · rw [if_neg hn] at h'
      exact hWF.fwdProc n' e' a' inst' h' hi'
  · intro p pd hp
    obtain ⟨e0, inst0, he0, hi0, hpid⟩ := hWF.procBwd p pd hp
    by_cases hn : name = pd.name
    · have he : e0 = e := by
        rw [← hn, hr] at he0
        exact (Option.some.inj he0).symm
      subst he
      by_cases ha : a = pd.aliasName
      · have hinst0 : inst0 = inst := by
          rw [← ha, hi] at hi0
          exact (Option.some.inj hi0).symm
        refine ⟨{ e0 with instances := aset e0.instances a { inst with machine := mach } },
          { inst with machine := mach }, ?_, ?_, ?_⟩
        · rw [aget_aset, if_pos hn]
        · simp only
          rw [← ha, aget_aset_self]
        · rw [← hpid, hinst0]
      · refine ⟨{ e0 with instances := aset e0.instances a { inst with machine := mach } },
          inst0, ?_, ?_, hpid⟩
        · rw [aget_aset, if_pos hn]
        · simp only
          rw [aget_aset_ne _ _ ha]
          exact hi0
    · exact ⟨e0, inst0, by rw [aget_aset, if_neg hn]; exact he0, hi0, hpid⟩
  · intro k p hk
    obtain ⟨n0, a0, e0, inst0, hke, he0, hi0, hpid⟩ := hWF.idxBwd k p hk
    by_cases hn : name = n0
    · have he : e0 = e := by
        rw [← hn, hr] at he0
        exact (Option.some.inj he0).symm
      subst he
      by_cases ha : a = a0
      · have hinst0 : inst0 = inst := by
          rw [← ha, hi] at hi0
          exact (Option.some.inj hi0).symm
        refine ⟨n0, a0, { e0 with instances := aset e0.instances a { inst with machine := mach } },
          { inst with machine := mach }, hke, ?_, ?_, ?_⟩
        · rw [aget_aset, if_pos hn]
        · simp only
          rw [← ha, aget_aset_self]
        · rw [← hpid, hinst0]
      · refine ⟨n0, a0, { e0 with instances := aset e0.instances a { inst with machine := mach } },
          inst0, hke, ?_, ?_, hpid⟩
        · rw [aget_aset, if_pos hn]
        · simp only
          rw [aget_aset_ne _ _ ha]
          exact hi0
    · exact ⟨n0, a0, e0, inst0, hke, by rw [aget_aset, if_neg hn]; exact he0, hi0, hpid⟩

/-- No live pid can equal the freshly allocated `pidSeq + 1`. -/
theorem pid_fresh (m : AppsModule) (hWF : WF m) :
    aget m.processIndex (m.pidSeq + 1) = none := by
  cases hg : aget m.processIndex (m.pidSeq + 1) with
  | none => rfl
  | some pd =>
    have := (hWF.pidBound _ _ hg).2
    omega

/-- The alias actually used by `spawn` is the provided one, or the pid string
when omitted; `spawn` with that alias made explicit behaves identically. -/
theorem spawn_aliasOpt (m : AppsModule) (name : String) (aliasOpt : Option String)
    (opts : Options) (now : Nat) :
    m.spawn name aliasOpt opts now =
      m.spawn name (some (match aliasOpt with
        | none => toString (nextPidAux m.processIndex (m.processIndex.length + 1) m.pidSeq)
        | some a => a)) opts now := by
  cases aliasOpt with
  | some a => rfl
  | none => rfl

/-- `spawn` preserves the invariant on every path. -/
theorem WF_spawn (m : AppsModule) (hWF : WF m) (name : String) (aliasOpt : Option String)
    (opts : Options) (now : Nat) : WF (m.spawn name aliasOpt opts now).st := by
  rw [spawn_aliasOpt]
  generalize (match aliasOpt with
    | none => toString (nextPidAux m.processIndex (m.processIndex.length + 1) m.pidSeq)
    | some a => a) = aliasName
  cases hr : aget m.registry name with
  | none =>
    simp only [AppsModule.spawn, hr]
    exact hWF
  | some e =>
    cases hc : e.appClass with
    | none =>
      simp only [AppsModule.spawn, hr, hc]
      exact hWF
    | some app =>
      have hfree := pid_fresh m hWF
      have hnp : nextPidAux m.processIndex (m.processIndex.length + 1) m.pidSeq
          = m.pidSeq + 1 :=
        nextPidAux_free _ _ _ (by rw [ahas_false_iff]; exact hfree) (Nat.succ_pos _)
      by_cases hx : ahas e.instances aliasName
      · rw [spawn_existing m name aliasName opts now e app hr hc hx, hnp]
        exact WF_pidSeq_bump m hWF _ (Nat.le_succ _)
      · rw [Bool.not_eq_true] at hx
        have hxe : aget e.instances aliasName = none := (ahas_false_iff _ _).mp hx
        have hnm : nameOk name := hWF.names name e hr
        rcases hre : runEffect .create app opts with ⟨calls, res⟩
        cases res with
        | error msg =>
          rw [spawn_create_error m name aliasName opts now e app msg calls hr hc hx hre, hnp]
          exact WF_pidSeq_bump m hWF _ (Nat.le_succ _)
        | ok u =>
          cases u
          rw [spawn_creates m name aliasName opts now e app calls hr hc hx hre, hnp]
          simp only
          set instN : Instance :=
            { app := app, pid := m.pidSeq + 1,
              machine := { app := app, name := name, aliasName := aliasName,
                           state := some .INACTIVE, createdAt := now,
                           lastTransitionAt := now } } with hinstN
          set eN : RegistryEntry :=
            { e with instances := aset e.instances aliasName instN } with heN
          refine ⟨keysNodup_aset _ _ _ hWF.regNodup, ?_,
            keysNodup_aset _ _ _ hWF.procNodup, keysNodup_aset _ _ _ hWF.idxNodup,
            ?_, ?_, ?_, ?_, ?_, ?_⟩
          · intro n' e' h'
            rw [aget_aset] at h'
            by_cases hn : name = n'
            · rw [if_pos hn] at h'
              obtain rfl := Option.some.inj h'
              exact keysNodup_aset _ _ _ (hWF.instNodup name e hr)
            · rw [if_neg hn] at h'
              exact hWF.instNodup n' e' h'
          · intro n' e' h'
            rw [aget_aset] at h'
            by_cases hn : name = n'
            · exact hn ▸ hnm
            · rw [if_neg hn] at h'
              exact hWF.names n' e' h'
          · intro n' e' a' inst' h' hi'
            rw [aget_aset] at h'
            by_cases hn : name = n'
            · rw [if_pos hn] at h'
              obtain rfl := Option.some.inj h'
              rw [heN] at hi'
              simp only at hi'
              rw [aget_aset] at hi'
              by_cases ha : aliasName = a'
              · rw [if_pos ha] at hi'
                obtain rfl := Option.some.inj hi'
                rw [← hn, ← ha]
                exact aget_aset_self _ _ _
              · rw [if_neg ha] at hi'
                have hk : ikey name aliasName ≠ ikey n' a' := by
                  rw [← hn]
                  exact fun hcon => ha (ikey_right_inj hcon)
                rw [aget_aset_ne _ _ hk]
                exact hWF.fwdIdx n' e a' inst' (hn ▸ hr) hi'
            · rw [if_neg hn] at h'
              have hk : ikey name aliasName ≠ ikey n' a' := fun hcon =>
                hn (ikey_inj hnm (hWF.names n' e' h') hcon).1
              rw [aget_aset_ne _ _ hk]
              exact hWF.fwdIdx n' e' a' inst' h' hi'
          · intro n' e' a' inst' h' hi'
            rw [aget_aset] at h'
            by_cases hn : name = n'
            · rw [if_pos hn] at h'
              obtain rfl := Option.some.inj h'
              rw [heN] at hi'
              simp only at hi'
              rw [aget_aset] at hi'
              by_cases ha : aliasName = a'
              · rw [if_pos ha] at hi'
                obtain rfl := Option.some.inj hi'
                rw [← hn, ← ha]
                exact aget_aset_self _ _ _
              · rw [if_neg ha] at hi'
                have hple := (hWF.pidBound inst'.pid ⟨n', a'⟩
                  (hWF.fwdProc n' e a' inst' (hn ▸ hr) hi')).2
                have hk : m.pidSeq + 1 ≠ inst'.pid := by omega
                rw [aget_aset_ne _ _ hk]
                exact hWF.fwdProc n' e a' inst' (hn ▸ hr) hi'
            · rw [if_neg hn] at h'
              have hple := (hWF.pidBound inst'.pid ⟨n', a'⟩
                (hWF.fwdProc n' e' a' inst' h' hi')).2
              have hk : m.pidSeq + 1 ≠ inst'.pid := by omega
              rw [aget_aset_ne _ _ hk]
              exact hWF.fwdProc n' e' a' inst' h' hi'
          · intro p pd hp
            rw [aget_aset] at hp
            by_cases hq : m.pidSeq + 1 = p
            · rw [if_pos hq] at hp
              obtain rfl := Option.some.inj hp
              refine ⟨eN, instN, aget_aset_self _ _ _, ?_, hq⟩
              rw [heN]
              simp only
              exact aget_aset_self _ _ _
            · rw [if_neg hq] at hp
              obtain ⟨e0, inst0, he0, hi0, hpid⟩ := hWF.procBwd p pd hp
              by_cases hn : name = pd.name
              · have he : e0 = e := by
                  rw [← hn, hr] at he0
                  exact (Option.some.inj he0).symm
                subst he
                have ha : aliasName ≠ pd.aliasName := by
                  intro hcon
                  rw [← hcon, hxe] at hi0
                  exact Option.noConfusion hi0
                refine ⟨eN, inst0, ?_, ?_, hpid⟩
                · rw [aget_aset, if_pos hn]
                · rw [heN]
                  simp only
                  rw [aget_aset_ne _ _ ha]
                  exact hi0
              · exact ⟨e0, inst0, by rw [aget_aset, if_neg hn]; exact he0, hi0, hpid⟩
          · intro k p hk
            rw [aget_aset] at hk
            by_cases hkk : ikey name aliasName = k
            · rw [if_pos hkk] at hk
              obtain rfl := Option.some.inj hk
              refine ⟨name, aliasName, eN, instN, hkk.symm, aget_aset_self _ _ _, ?_, rfl⟩
              rw [heN]
              simp only
              exact aget_aset_self _ _ _
            · rw [if_neg hkk] at hk
              obtain ⟨n0, a0, e0, inst0, hke, he0, hi0, hpid⟩ := hWF.idxBwd k p hk
              by_cases hn : name = n0
              · have he : e0 = e := by
                  rw [← hn, hr] at he0
                  exact (Option.some.inj he0).symm
                subst he
                have ha : aliasName ≠ a0 := by
                  intro hcon
                  rw [← hcon, hxe] at hi0
                  exact Option.noConfusion hi0
                refine ⟨n0, a0, eN, inst0, hke, ?_, ?_, hpid⟩
                · rw [aget_aset, if_pos hn]
                · rw [heN]
                  simp only
                  rw [aget_aset_ne _ _ ha]
                  exact hi0
              · exact ⟨n0, a0, e0, inst0, hke,
                  by rw [aget_aset, if_neg hn]; exact he0, hi0, hpid⟩
          · intro p pd hp
            rw [aget_aset] at hp
            by_cases hq : m.pidSeq + 1 = p
            · refine ⟨by omega, ?_⟩
              show p ≤ m.pidSeq + 1
              omega
            · rw [if_neg hq] at hp
              have hb := hWF.pidBound p pd hp
              refine ⟨hb.1, ?_⟩
              show p ≤ m.pidSeq + 1
              have := hb.2
              omega

/-- `stop` preserves the invariant on every path. -/
theorem WF_stop (m : AppsModule) (hWF : WF m) (name aliasName : String)
    (opts : Options) (now : Nat) : WF (m.stop name aliasName opts now).st := by
  cases hr : aget m.registry name with
  | none =>
    simp only [AppsModule.stop, hr]
    exact hWF
  | some e =>
    cases hi : aget e.instances aliasName with
    | none =>
      simp only [AppsModule.stop, hr, hi]
      exact hWF
    | some inst =>
      simp only [AppsModule.stop, hr, hi]
      cases hs1 : (inst.machine.transition .STOP { force := opts.force } now).result with
      | error err =>
        simp only [hs1]
        exact WF_updateMachine m hWF name aliasName e inst _ hr hi
      | ok s1 =>
        simp only [hs1]
        cases hs2 : ((inst.machine.transition .STOP { force := opts.force } now).machine.transition
            .STOP {} now).result with
        | error err =>
          simp only [hs2]
          exact WF_updateMachine m hWF name aliasName e inst _ hr hi
        | ok s2 =>
          have hfi := hWF.fwdIdx name e aliasName inst hr hi
          have hfp := hWF.fwdProc name e aliasName inst hr hi
          have hpos : 0 < inst.pid := (hWF.pidBound _ _ hfp).1
          have hnm : nameOk name := hWF.names name e hr
          have INodup := hWF.instNodup name e hr
          have hpidneq : ∀ n' e' a' inst', aget m.registry n' = some e' →
              aget e'.instances a' = some inst' → (n' ≠ name ∨ a' ≠ aliasName) →
              inst'.pid ≠ inst.pid := by
            intro n' e' a' inst' h' hi' hdisj hcon
            have h1 := hWF.fwdProc n' e' a' inst' h' hi'
            rw [hcon, hfp] at h1
            have hinj := Option.some.inj h1
            rcases hdisj with hd | hd
            · exact hd (congrArg Identity.name hinj).symm
            · exact hd (congrArg Identity.aliasName hinj).symm
          simp only [hs2, hfi, if_neg (Nat.pos_iff_ne_zero.mp hpos)]
          set eD : RegistryEntry :=
            { e with instances := adel e.instances aliasName } with heD
          refine ⟨keysNodup_aset _ _ _ hWF.regNodup, ?_,
            keysNodup_adel _ _ hWF.procNodup, keysNodup_adel _ _ hWF.idxNodup,
            ?_, ?_, ?_, ?_, ?_, ?_⟩
          · intro n' e' h'
            rw [aget_aset] at h'
            by_cases hn : name = n'
            · rw [if_pos hn] at h'
              obtain rfl := Option.some.inj h'
              exact keysNodup_adel _ _ INodup
            · rw [if_neg hn] at h'
              exact hWF.instNodup n' e' h'
          · intro n' e' h'
            rw [aget_aset] at h'
            by_cases hn : name = n'
            · exact hn ▸ hnm
            · rw [if_neg hn] at h'
              exact hWF.names n' e' h'
          · intro n' e' a' inst' h' hi'
            rw [aget_aset] at h'
            by_cases hn : name = n'
            · rw [if_pos hn] at h'
              obtain rfl := Option.some.inj h'
              rw [heD] at hi'
              simp only at hi'
              rw [aget_adel _ INodup] at hi'
              by_cases ha : aliasName = a'
              · rw [if_pos ha] at hi'
                exact Option.noConfusion hi'
              · rw [if_neg ha] at hi'
                have hk : ikey name aliasName ≠ ikey n' a' := by
                  rw [← hn]
                  exact fun hcon => ha (ikey_right_inj hcon)
                rw [aget_adel_ne _ hWF.idxNodup hk]
                exact hWF.fwdIdx n' e a' inst' (hn ▸ hr) hi'
            · rw [if_neg hn] at h'
              have hk : ikey name aliasName ≠ ikey n' a' := fun hcon =>
                hn (ikey_inj hnm (hWF.names n' e' h') hcon).1
              rw [aget_adel_ne _ hWF.idxNodup hk]
              exact hWF.fwdIdx n' e' a' inst' h' hi'
          · intro n' e' a' inst' h' hi'
            rw [aget_aset] at h'
            by_cases hn : name = n'
            · rw [if_pos hn] at h'
              obtain rfl := Option.some.inj h'
              rw [heD] at hi'
              simp only at hi'
              rw [aget_adel _ INodup] at hi'
              by_cases ha : aliasName = a'
              · rw [if_pos ha] at hi'
                exact Option.noConfusion hi'
              · rw [if_neg ha] at hi'
                have hk : inst'.pid ≠ inst.pid :=
                  hpidneq n' e a' inst' (hn ▸ hr) hi' (Or.inr fun hcon => ha hcon.symm)
                rw [aget_adel_ne _ hWF.procNodup (Ne.symm hk)]
                exact hWF.fwdProc n' e a' inst' (hn ▸ hr) hi'
            · rw [if_neg hn] at h'
              have hk : inst'.pid ≠ inst.pid :=
                hpidneq n' e' a' inst' h' hi' (Or.inl fun hcon => hn hcon.symm)
              rw [aget_adel_ne _ hWF.procNodup (Ne.symm hk)]
              exact hWF.fwdProc n' e' a' inst' h' hi'
          · intro p pd hp
            rw [aget_adel _ hWF.procNodup] at hp
            by_cases hq : inst.pid = p
            · rw [if_pos hq] at hp
              exact Option.noConfusion hp
            · rw [if_neg hq] at hp
              obtain ⟨e0, inst0, he0, hi0, hpid⟩ := hWF.procBwd p pd hp
              by_cases hn : name = pd.name
              · have he : e0 = e := by
                  rw [← hn, hr] at he0
                  exact (Option.some.inj he0).symm
                subst he
                have ha : aliasName ≠ pd.aliasName := by
                  intro hcon
                  rw [← hcon, hi] at hi0
                  obtain rfl := Option.some.inj hi0
                  exact hq hpid
                refine ⟨eD, inst0, ?_, ?_, hpid⟩
                · rw [aget_aset, if_pos hn]
                · rw [heD]
                  simp only
                  rw [aget_adel_ne _ INodup ha]
                  exact hi0
              · exact ⟨e0, inst0, by rw [aget_aset, if_neg hn]; exact he0, hi0, hpid⟩
          · intro k p hk
            rw [aget_adel _ hWF.idxNodup] at hk
            by_cases hkk : ikey name aliasName = k
            · rw [if_pos hkk] at hk
              exact Option.noConfusion hk
            · rw [if_neg hkk] at hk
              obtain ⟨n0, a0, e0, inst0, hke, he0, hi0, hpid⟩ := hWF.idxBwd k p hk
              by_cases hn : name = n0
              · have he : e0 = e := by
                  rw [← hn, hr] at he0
                  exact (Option.some.inj he0).symm
                subst he
                have ha : aliasName ≠ a0 := by
                  intro hcon
                  rw [hke, ← hcon, ← hn] at hkk
                  exact hkk rfl
                refine ⟨n0, a0, eD, inst0, hke, ?_, ?_, hpid⟩
                · rw [aget_aset, if_pos hn]
                · rw [heD]
                  simp only
                  rw [aget_adel_ne _ INodup ha]
                  exact hi0
              · exact ⟨n0, a0, e0, inst0, hke,
                  by rw [aget_aset, if_neg hn]; exact he0, hi0, hpid⟩
          · intro p pd hp
            rw [aget_adel _ hWF.procNodup] at hp
            by_cases hq : inst.pid = p
            · rw [if_pos hq] at hp
              exact Option.noConfusion hp
            · rw [if_neg hq] at hp
              exact hWF.pidBound p pd hp

/-- `#renameAlias` preserves the invariant on every path. -/
theorem WF_rename (m : AppsModule) (hWF : WF m) (name oldAlias newAlias : String) :
    WF (m.renameAlias name oldAlias newAlias).2 := by
  by_cases hnn : newAlias = ""
  · simp only [AppsModule.renameAlias, if_pos hnn]
    exact hWF
  · by_cases hne : newAlias = oldAlias
    · simp only [AppsModule.renameAlias, if_neg hnn, if_pos hne]
      exact hWF
    · cases hr : aget m.registry name with
      | none =>
        simp only [AppsModule.renameAlias, if_neg hnn, if_neg hne, hr]
        exact hWF
      | some e =>
        cases hi : aget e.instances oldAlias with
        | none =>
          simp only [AppsModule.renameAlias, if_neg hnn, if_neg hne, hr, hi]
          exact hWF
        | some inst =>
          by_cases hnew : ahas e.instances newAlias
          · simp only [AppsModule.renameAlias, if_neg hnn, if_neg hne, hr, hi, hnew, if_true]
            exact hWF
          · rw [Bool.not_eq_true] at hnew
            by_cases hgl : ahas m.globalAliasIndex newAlias
            · simp only [AppsModule.renameAlias, if_neg hnn, if_neg hne, hr, hi, hnew,
                Bool.false_eq_true, if_false, hgl, if_true]
              exact hWF
            · rw [Bool.not_eq_true] at hgl
              have hfi := hWF.fwdIdx name e oldAlias inst hr hi
              have hfp := hWF.fwdProc name e oldAlias inst hr hi
              have hpos : 0 < inst.pid := (hWF.pidBound _ _ hfp).1
              have hnm : nameOk name := hWF.names name e hr
              have INodup := hWF.instNodup name e hr
              have hxnew : aget e.instances newAlias = none := (ahas_false_iff _ _).mp hnew
              have hpidneq : ∀ n' e' a' inst', aget m.registry n' = some e' →
                  aget e'.instances a' = some inst' → (n' ≠ name ∨ a' ≠ oldAlias) →
                  inst'.pid ≠ inst.pid := by
                intro n' e' a' inst' h' hi' hdisj hcon
                have h1 := hWF.fwdProc n' e' a' inst' h' hi'
                rw [hcon, hfp] at h1
                have hinj := Option.some.inj h1
                rcases hdisj with hd | hd
                · exact hd (congrArg Identity.name hinj).symm
                · exact hd (congrArg Identity.aliasName hinj).symm
              simp only [AppsModule.renameAlias, if_neg hnn, if_neg hne, hr, hi, hnew, hgl,
                Bool.false_eq_true, if_false, hfi, if_neg (Nat.pos_iff_ne_zero.mp hpos), hfp]
              set eR : RegistryEntry :=
                { e with instances := aset (adel e.instances oldAlias) newAlias inst } with heR
              refine ⟨keysNodup_aset _ _ _ hWF.regNodup, ?_,
                keysNodup_aset _ _ _ hWF.procNodup,
                keysNodup_aset _ _ _ (keysNodup_adel _ _ hWF.idxNodup),
                ?_, ?_, ?_, ?_, ?_, ?_⟩
              · intro n' e' h'
                rw [aget_aset] at h'
                by_cases hn : name = n'
                · rw [if_pos hn] at h'
                  obtain rfl := Option.some.inj h'
                  exact keysNodup_aset _ _ _ (keysNodup_adel _ _ INodup)
                · rw [if_neg hn] at h'
                  exact hWF.instNodup n' e' h'
              · intro n' e' h'
                rw [aget_aset] at h'
                by_cases hn : name = n'
                · exact hn ▸ hnm
                · rw [if_neg hn] at h'
                  exact hWF.names n' e' h'
              · intro n' e' a' inst' h' hi'
                rw [aget_aset] at h'
                by_cases hn : name = n'
                · rw [if_pos hn] at h'
                  obtain rfl := Option.some.inj h'
                  rw [heR] at hi'
                  simp only at hi'
                  rw [aget_aset] at hi'
                  by_cases hb : newAlias = a'
                  · rw [if_pos hb] at hi'
                    obtain rfl := Option.some.inj hi'
                    rw [← hn, ← hb]
                    exact aget_aset_self _ _ _
                  · rw [if_neg hb, aget_adel _ INodup] at hi'
                    by_cases hc : oldAlias = a'
                    · rw [if_pos hc] at hi'
                      exact Option.noConfusion hi'
                    · rw [if_neg hc] at hi'
                      have hk1 : ikey name newAlias ≠ ikey n' a' := by
                        rw [← hn]
                        exact fun hcon => hb (ikey_right_inj hcon)
                      have hk2 : ikey name oldAlias ≠ ikey n' a' := by
                        rw [← hn]
                        exact fun hcon => hc (ikey_right_inj hcon)
                      rw [aget_aset_ne _ _ hk1,
                        aget_adel_ne _ hWF.idxNodup hk2]
                      exact hWF.fwdIdx n' e a' inst' (hn ▸ hr) hi'
                · rw [if_neg hn] at h'
                  have hk1 : ikey name newAlias ≠ ikey n' a' := fun hcon =>
                    hn (ikey_inj hnm (hWF.names n' e' h') hcon).1
                  have hk2 : ikey name oldAlias ≠ ikey n' a' := fun hcon =>
                    hn (ikey_inj hnm (hWF.names n' e' h') hcon).1
                  rw [aget_aset_ne _ _ hk1, aget_adel_ne _ hWF.idxNodup hk2]
                  exact hWF.fwdIdx n' e' a' inst' h' hi'
              · intro n' e' a' inst' h' hi'
                rw [aget_aset] at h'
                by_cases hn : name = n'
                · rw [if_pos hn] at h'
                  obtain rfl := Option.some.inj h'
                  rw [heR] at hi'
                  simp only at hi'
                  rw [aget_aset] at hi'
                  by_cases hb : newAlias = a'
                  · rw [if_pos hb] at hi'
                    obtain rfl := Option.some.inj hi'
                    rw [← hn, ← hb]
                    exact aget_aset_self _ _ _
                  · rw [if_neg hb, aget_adel _ INodup] at hi'
                    by_cases hc : oldAlias = a'
                    · rw [if_pos hc] at hi'
                      exact Option.noConfusion hi'
                    · rw [if_neg hc] at hi'
                      have hk : inst'.pid ≠ inst.pid :=
                        hpidneq n' e a' inst' (hn ▸ hr) hi'
                          (Or.inr fun hcon => hc hcon.symm)
                      rw [aget_aset_ne _ _ (Ne.symm hk)]
                      exact hWF.fwdProc n' e a' inst' (hn ▸ hr) hi'
                · rw [if_neg hn] at h'
                  have hk : inst'.pid ≠ inst.pid :=
                    hpidneq n' e' a' inst' h' hi' (Or.inl fun hcon => hn hcon.symm)
                  rw [aget_aset_ne _ _ (Ne.symm hk)]
                  exact hWF.fwdProc n' e' a' inst' h' hi'
              · intro p pd hp
                rw [aget_aset] at hp
                by_cases hq : inst.pid = p
                · rw [if_pos hq] at hp
                  obtain rfl := Option.some.inj hp
                  refine ⟨eR, inst, aget_aset_self _ _ _, ?_, hq⟩
                  rw [heR]
                  simp only
                  exact aget_aset_self _ _ _
                · rw [if_neg hq] at hp
                  obtain ⟨e0, inst0, he0, hi0, hpid⟩ := hWF.procBwd p pd hp
                  by_cases hn : name = pd.name
                  · have he : e0 = e := by
                      rw [← hn, hr] at he0
                      exact (Option.some.inj he0).symm
                    subst he
                    have hb : newAlias ≠ pd.aliasName := by
                      intro hcon
                      rw [← hcon, hxnew] at hi0
                      exact Option.noConfusion hi0
                    have hc : oldAlias ≠ pd.aliasName := by
                      intro hcon
                      rw [← hcon, hi] at hi0
                      obtain rfl := Option.some.inj hi0
                      exact hq hpid
                    refine ⟨eR, inst0, ?_, ?_, hpid⟩
                    · rw [aget_aset, if_pos hn]
                    · rw [heR]
                      simp only
                      rw [aget_aset_ne _ _ hb, aget_adel_ne _ INodup hc]
                      exact hi0
                  · exact ⟨e0, inst0, by rw [aget_aset, if_neg hn]; exact he0, hi0, hpid⟩
              · intro k p hk
                rw [aget_aset] at hk
                by_cases hkk : ikey name newAlias = k
                · rw [if_pos hkk] at hk
                  obtain rfl := Option.some.inj hk
                  refine ⟨name, newAlias, eR, inst, hkk.symm, aget_aset_self _ _ _, ?_, rfl⟩
                  rw [heR]
                  simp only
                  exact aget_aset_self _ _ _
                · rw [if_neg hkk, aget_adel _ hWF.idxNodup] at hk
                  by_cases hko : ikey name oldAlias = k
                  · rw [if_pos hko] at hk
                    exact Option.noConfusion hk
                  · rw [if_neg hko] at hk
                    obtain ⟨n0, a0, e0, inst0, hke, he0, hi0, hpid⟩ := hWF.idxBwd k p hk
                    by_cases hn : name = n0
                    · have he : e0 = e := by
                        rw [← hn, hr] at he0
                        exact (Option.some.inj he0).symm
                      subst he
                      have hb : newAlias ≠ a0 := by
                        intro hcon
                        rw [hke, ← hcon, ← hn] at hkk
                        exact hkk rfl
                      have hc : oldAlias ≠ a0 := by
                        intro hcon
                        rw [hke, ← hcon, ← hn] at hko
                        exact hko rfl
                      refine ⟨n0, a0, eR, inst0, hke, ?_, ?_, hpid⟩
                      · rw [aget_aset, if_pos hn]
                      · rw [heR]
                        simp only
                        rw [aget_aset_ne _ _ hb, aget_adel_ne _ INodup hc]
                        exact hi0
                    · exact ⟨n0, a0, e0, inst0, hke,
                        by rw [aget_aset, if_neg hn]; exact he0, hi0, hpid⟩
              · intro p pd hp
                rw [aget_aset] at hp
                by_cases hq : inst.pid = p
                · have hb := hWF.pidBound inst.pid ⟨name, oldAlias⟩ hfp
                  exact ⟨hq ▸ hb.1, hq ▸ hb.2⟩
                · rw [if_neg hq] at hp
                  exact hWF.pidBound p pd hp

/-- Driving one machine event preserves the invariant (success or crash, the
identity and pid are untouched). -/
theorem WF_driveEvent (m : AppsModule) (hWF : WF m) (name a : String) (ev : AppEvent)
    (opts : Options) (now : Nat) : WF (m.driveEvent name a ev opts now).st := by
  cases hgi : m.getInstance name a with
  | none =>
    simp only [AppsModule.driveEvent, hgi]
    exact hWF
  | some inst =>
    obtain ⟨e, hr, hi⟩ := getInstance_eq_some hgi
    cases hres : (inst.machine.transition ev opts now).result with
    | ok s =>
      simp only [AppsModule.driveEvent, hgi, hres]
      exact WF_updateMachine m hWF name a e inst _ hr hi
    | error err =>
      simp only [AppsModule.driveEvent, hgi, hres]
      exact WF_updateMachine m hWF name a e inst _ hr hi

theorem WF_activateCmd (m : AppsModule) (hWF : WF m) (name a : String)
    (opts : Options) (now : Nat) : WF (m.activate name a opts now).st := by
  unfold AppsModule.activate
  by_cases hmode : opts.mode = some "background"
  · rw [if_pos hmode]
    exact WF_driveEvent m hWF name a .ACTIVATE_BACKGROUND opts now
  · rw [if_neg hmode]
    exact WF_driveEvent m hWF name a .ACTIVATE_FOREGROUND opts now

theorem WF_suspendCmd (m : AppsModule) (hWF : WF m) (name a : String)
    (opts : Options) (now : Nat) : WF (m.suspend name a opts now).st := by
  cases hgi : m.getInstance name a with
  | none =>
    simp only [AppsModule.suspend, hgi]
    exact hWF
  | some inst =>
    simp only [AppsModule.suspend, hgi]
    by_cases hs : inst.state ≠ some .SUSPENDED
    · rw [if_pos hs]
      exact WF_driveEvent m hWF name a .SUSPEND opts now
    · rw [if_neg hs]
      exact hWF

theorem WF_signalCmd (m : AppsModule) (hWF : WF m) (name a sig : String)
    (opts : Options) (now : Nat) : WF (m.signal name a sig opts now).st := by
  cases hgi : m.getInstance name a with
  | none =>
    simp only [AppsModule.signal, hgi]
    exact hWF
  | some inst =>
    obtain ⟨e, hr, hi⟩ := getInstance_eq_some hgi
    cases hres : (inst.machine.signalStep sig opts now).result with
    | ok s =>
      simp only [AppsModule.signal, hgi, hres]
      exact WF_updateMachine m hWF name a e inst _ hr hi
    | error err =>
      simp only [AppsModule.signal, hgi, hres]
      exact WF_updateMachine m hWF name a e inst _ hr hi

theorem WF_register (m : AppsModule) (hWF : WF m) (name : String) (app : App)
    (meta : RegisterMeta) (hnm : nameOk name) : WF (m.register name app meta).2 := by
  by_cases h0 : name = ""
  · simp only [AppsModule.register, if_pos h0]
    exact hWF
  · simp only [AppsModule.register, if_neg h0]
    apply WF_setEntry m hWF name _ hnm
    cases hr : aget m.registry name with
    | some e =>
      simp only [hr, Option.getD]
      cases meta.autostart <;> split <;> rfl
    | none =>
      simp only [hr, Option.getD]
      cases meta.autostart <;> split <;> rfl

theorem WF_stepCmd (m : AppsModule) (hWF : WF m) (c : Cmd) (hc : c.colonFree) :
    WF (stepCmd m c) := by
  cases c with
  | register n app meta => exact WF_register m hWF n app meta hc
  | spawn n a o t => exact WF_spawn m hWF n a o t
  | activate n a o t => exact WF_activateCmd m hWF n a o t
  | deactivate n a o t => exact WF_driveEvent m hWF n a .DEACTIVATE o t
  | suspend n a o t => exact WF_suspendCmd m hWF n a o t
  | resume n a o t => exact WF_driveEvent m hWF n a .RESUME o t
  | stop n a o t => exact WF_stop m hWF n a o t
  | signal n a s o t => exact WF_signalCmd m hWF n a s o t
  | setAlias n o nw => exact WF_rename m hWF n o nw

theorem WF_foldl (cs : List Cmd) : ∀ m, WF m → (∀ c ∈ cs, c.colonFree) →
    WF (cs.foldl stepCmd m) := by
  induction cs with
  | nil => exact fun m hWF _ => hWF
  | cons c cs ih =>
    intro m hWF hall
    exact ih (stepCmd m c) (WF_stepCmd m hWF c (hall c (by simp)))
      (fun c' hc' => hall c' (by simp [hc']))

theorem WF_consistentThree (m : AppsModule) (hWF : WF m) : ConsistentThree m := by
  intro n e a inst hr hi
  have hidx := hWF.fwdIdx n e a inst hr hi
  have hproc := hWF.fwdProc n e a inst hr hi
  exact ⟨countKey_eq_one _ _ _ (hWF.instNodup n e hr) hi,
    hidx, countKey_eq_one _ _ _ hWF.idxNodup hidx,
    hproc, countKey_eq_one _ _ _ hWF.procNodup hproc⟩

theorem consistentFourAt_of (m : AppsModule) (h : ConsistentFour m) (n a : String) :
    consistentFourAt m n a = true := by
  cases hr : aget m.registry n with
  | none => simp [consistentFourAt, hr]
  | some e =>
    cases hi : aget e.instances a with
    | none => simp [consistentFourAt, hr, hi]
    | some inst =>
      obtain ⟨h1, h2, h3, h4, h5, h6, h7⟩ := h n e a inst hr hi
      simp [consistentFourAt, hr, hi, h1, h2, h3, h4, h5, h6, h7]

/-- C1 counterexample: the four commands of `sharedAliasCmds` all succeed (two
classes each spawn a live instance under alias `"x"`), but afterwards the
four-way consistency fails: the second spawn overwrote the global alias
index's `"x"` entry, so class `A`'s live instance has no agreeing entry
there. -/
theorem c1_consistency_counterexample :
    allOk initModule sharedAliasCmds = true ∧
    ¬ ConsistentFour (runCmds sharedAliasCmds) := by
  refine ⟨rfl, fun h => ?_⟩
  have hchk := consistentFourAt_of _ h "A" "x"
  rw [show consistentFourAt (runCmds sharedAliasCmds) "A" "x" = false from rfl] at hchk
  exact Bool.noConfusion hchk

/-- C1 amended: for every sequence of orchestrator commands (class names free
of `':'`, so that the `` `${name}:${alias}` `` index key is unambiguous), after
each command every live instance appears in exactly one entry of its class's
alias map, exactly one entry of the handle index and exactly one entry of the
`(name, alias)` index, and the three agree; the global alias index is excluded
because a spawn under an alias already used by another class silently
overwrites its entry (and stop/rename delete it), as the counterexample
shows. -/
theorem c1_consistency_amended (cs : List Cmd) (h : ∀ c ∈ cs, c.colonFree) :
    ConsistentThree (runCmds cs) :=
  WF_consistentThree _ (WF_foldl cs initModule WF_initModule h)

/-- C1 witness: the amended consistency at a concrete run touching every
command kind. -/
theorem c1_witness :
    (∀ c ∈ c1DemoCmds, c.colonFree) ∧ ConsistentThree (runCmds c1DemoCmds) :=
  have hall : ∀ c ∈ c1DemoCmds, c.colonFree := by
    intro c hc
    simp only [c1DemoCmds, List.mem_cons, List.not_mem_nil, or_false] at hc
    rcases hc with rfl | rfl | rfl | rfl | rfl | rfl | rfl | rfl | rfl | rfl | rfl
    all_goals first
      | trivial
      | (unfold Cmd.colonFree nameOk; decide)
  ⟨hall, c1_consistency_amended c1DemoCmds hall⟩

end LoomSdk
